import Mathlib

/-!
Verification of the image-to-PDF web application's image enhancement
pipeline, resource budgeting and order detection against its JavaScript
sources.

The embedding conventions:

* JavaScript numbers are modelled as exact rationals (`ℚ`).  The pixel
  stores of `Uint8ClampedArray` clamp to `[0, 255]` and round
  half-to-even; this is `jsRound`.
* A typed array (`ImageData.data`) is a `Buf`: a length together with a
  byte function.  Reading out of bounds yields JavaScript `undefined`,
  modelled as `none`; arithmetic on `undefined` is `NaN` and a
  `Uint8ClampedArray` store of `NaN` yields `0`, modelled by
  `storeByte none = 0`.
* A canvas is a `Canvas`: dimensions plus the RGBA backing store as a
  flat byte function.  `getImageData` reads transparent black outside
  the canvas, `putImageData` clips to the canvas, per the HTML spec.
-/

/-- `Uint8ClampedArray` store semantics: clamp a JavaScript number to
`[0,255]`, then round to the nearest integer, ties to even. -/
def jsRound (q : ℚ) : ℕ :=
  let v := max 0 (min 255 q)
  let f := ⌊v⌋
  let r := v - f
  (if r < 1/2 then f else if 1/2 < r then f + 1 else if f % 2 = 0 then f else f + 1).toNat

/-- A JavaScript typed array: a length and the byte at each index. -/
structure Buf where
  len : ℕ
  byte : ℕ → ℕ

/-- Reading `data[i]` from a typed array: `undefined` (`none`) out of bounds. -/
def Buf.read (d : Buf) (i : ℕ) : Option ℚ :=
  if i < d.len then some (d.byte i) else none

/-- Storing a possibly-`undefined` JavaScript number into a
`Uint8ClampedArray` cell: `undefined` becomes `NaN`, which stores as `0`. -/
def storeByte : Option ℚ → ℕ
  | none => 0
  | some q => jsRound q

/-- A canvas: width, height, and the RGBA backing store (flat, 4 bytes
per pixel, row-major). -/
structure Canvas where
  W : ℕ
  H : ℕ
  pix : ℕ → ℕ

/-- `ctx.getImageData(x, y, w, h)`: extract a `w×h` RGBA rectangle;
pixels outside the canvas read as transparent black. -/
def getImageData (cv : Canvas) (x y w h : ℕ) : Buf :=
  ⟨w * h * 4, fun i =>
    let p := i / 4
    let ch := i % 4
    let k := p % w
    let j := p / w
    if i < w * h * 4 ∧ x + k < cv.W ∧ y + j < cv.H then
      cv.pix (((y + j) * cv.W + (x + k)) * 4 + ch)
    else 0⟩

/-- `ctx.putImageData(src, dx, dy)` for an `sw×sh` `ImageData`: write the
rectangle onto the canvas, clipped to the canvas bounds. -/
def putImageData (cv : Canvas) (src : Buf) (sw sh dx dy : ℕ) : Canvas :=
  { cv with pix := fun i =>
      let p := i / 4
      let ch := i % 4
      let px := p % cv.W
      let py := p / cv.W
      if i < cv.W * cv.H * 4 ∧ dx ≤ px ∧ px < dx + sw ∧ dy ≤ py ∧ py < dy + sh then
        storeByte (src.read (((py - dy) * sw + (px - dx)) * 4 + ch))
      else cv.pix i }

namespace ImageEnhancerCore

/-- `this.enhancementLevels[level].strength` (imageEnhancerCore.js:5-10):
strengths 0 / 0.3 / 0.6 / 1.0 for levels 0-3; other levels have no entry. -/
def enhancementStrength : ℕ → Option ℚ
  | 0 => some 0
  | 1 => some (3/10)
  | 2 => some (3/5)
  | 3 => some 1
  | _ => none

/-- The 3×3 sharpening convolution sum at pixel `(x, y)`, channel `c`, of
a buffer of row width `w` (imageEnhancerCore.js:74-92 and 132-149): the
kernel is row-major `[0, -s, 0, -s, 1+4s, -s, 0, -s, 0]` and the loop
accumulates `data[pos] * kernel[kernelPos]` over the nine positions in
row-major order.  An out-of-bounds read (`undefined`) makes the whole
sum `NaN` (`none`).  Callers only invoke this with `1 ≤ x` and `1 ≤ y`,
matching the loop bounds in the source. -/
def convSum (d : Buf) (w : ℕ) (s : ℚ) (x y c : ℕ) : Option ℚ :=
  match d.read (((y-1)*w + (x-1))*4 + c), d.read (((y-1)*w + x)*4 + c),
        d.read (((y-1)*w + (x+1))*4 + c), d.read ((y*w + (x-1))*4 + c),
        d.read ((y*w + x)*4 + c), d.read ((y*w + (x+1))*4 + c),
        d.read (((y+1)*w + (x-1))*4 + c), d.read (((y+1)*w + x)*4 + c),
        d.read (((y+1)*w + (x+1))*4 + c) with
  | some v0, some v1, some v2, some v3, some v4, some v5, some v6, some v7, some v8 =>
      some (0 + v0 * 0 + v1 * (-s) + v2 * 0 + v3 * (-s) + v4 * (1 + 4*s)
              + v5 * (-s) + v6 * 0 + v7 * (-s) + v8 * 0)
  | _, _, _, _, _, _, _, _, _ => none

/-- The write phase shared by `applyHighQualitySharpening` and
`processImageBlock`: `newData` is a copy of `data`; for every
`1 ≤ y < h-1`, `1 ≤ x < w-1` and colour channel `c < 3`, position
`(y*w+x)*4+c` receives the clamped convolution sum. -/
def sharpenWrite (w h : ℕ) (s : ℚ) (d : Buf) : Buf :=
  ⟨d.len, fun i =>
    let p := i / 4
    let ch := i % 4
    let x := p % w
    let y := p / w
    if i < w * h * 4 ∧ ch < 3 ∧ 1 ≤ x ∧ x + 1 < w ∧ 1 ≤ y ∧ y + 1 < h then
      storeByte (convSum d w s x y ch)
    else d.byte i⟩

/-- `applyHighQualitySharpening` (imageEnhancerCore.js:68-103): read the
whole canvas, convolve the interior with the 3×3 kernel, write the
result back at the origin. -/
def applyHighQualitySharpening (cv : Canvas) (s : ℚ) : Canvas :=
  let d := getImageData cv 0 0 cv.W cv.H
  putImageData cv (sharpenWrite cv.W cv.H s d) cv.W cv.H 0 0

/-- The centre copy of `processImageBlock`
(imageEnhancerCore.js:156-171): `centerArray` starts as zeroes
(`createImageData`), colour bytes come from the convolved `newData`, the
alpha byte from the original grabbed `data`, always at the constant
offset `padding = 1` into the grabbed region
(`srcPos = ((py + padding) * w + (px + padding)) * 4`). -/
def centerCopy (w bw bh : ℕ) (nd d : Buf) : Buf :=
  ⟨bw * bh * 4, fun i =>
    let p := i / 4
    let ch := i % 4
    let px := p % bw
    let py := p / bw
    if i < bw * bh * 4 then
      if ch < 3 then storeByte (nd.read (((py + 1) * w + (px + 1)) * 4 + ch))
      else storeByte (d.read (((py + 1) * w + (px + 1)) * 4 + ch))
    else 0⟩

/-- `processImageBlock` (imageEnhancerCore.js:119-174): grab the block
plus a halo clamped to the canvas, convolve, then copy the "centre"
back. -/
def processImageBlock (cv : Canvas) (startX startY bw bh : ℕ) (s : ℚ) : Canvas :=
  -- padding = 1; Nat subtraction equals Math.max(0, startX - padding)
  let x := startX - 1
  let y := startY - 1
  let w := min (cv.W - x) (bw + 2)
  let h := min (cv.H - y) (bh + 2)
  let d := getImageData cv x y w h
  let nd := sharpenWrite w h s d
  putImageData cv (centerCopy w bw bh nd d) bw bh startX startY

/-- The block starts `0, bs, 2·bs, …` below `total`
(`for (let start = 0; start < total; start += bs)`). -/
def blockStarts (total bs : ℕ) : List ℕ :=
  (List.range ((total + bs - 1) / bs)).map (· * bs)

/-- `applyOptimizedSharpening` (imageEnhancerCore.js:105-117): process
512×512 blocks, rows outer, columns inner, sequentially on the shared
canvas. -/
def applyOptimizedSharpening (cv : Canvas) (s : ℚ) : Canvas :=
  (blockStarts cv.H 512).foldl (fun c startY =>
    (blockStarts cv.W 512).foldl (fun c2 startX =>
      processImageBlock c2 startX startY (min 512 (cv.W - startX)) (min 512 (cv.H - startY)) s) c) cv

/-- `enhanceBlockContrast` (imageEnhancerCore.js:190-207): per colour
channel, `value = data[i+c]/255`, `value = (value - 0.5)·contrast + 0.5`
with `contrast = (f+1)²/(f·(f+1)+1)`, stored as
`Math.max(0, Math.min(255, value·255))`; alpha untouched. -/
def contrastWrite (bw bh : ℕ) (contrast : ℚ) (d : Buf) : Buf :=
  ⟨bw * bh * 4, fun i =>
    if i < bw * bh * 4 ∧ i % 4 < 3 then
      storeByte (some ((((d.byte i : ℚ) / 255 - 1/2) * contrast + 1/2) * 255))
    else d.byte i⟩

/-- `enhanceBlockContrast` (imageEnhancerCore.js:190-207): per-block
contrast with coefficient `(f+1)²/(f·(f+1)+1)`. -/
def enhanceBlockContrast (cv : Canvas) (startX startY bw bh : ℕ) (f : ℚ) : Canvas :=
  let d := getImageData cv startX startY bw bh
  let contrast := (f + 1) * (f + 1) / (f * (f + 1) + 1)
  putImageData cv (contrastWrite bw bh contrast d) bw bh startX startY

/-- `applyContrastEnhancement` (imageEnhancerCore.js:176-188): the
contrast pass over 1024×1024 blocks. -/
def applyContrastEnhancement (cv : Canvas) (f : ℚ) : Canvas :=
  (blockStarts cv.H 1024).foldl (fun c startY =>
    (blockStarts cv.W 1024).foldl (fun c2 startX =>
      enhanceBlockContrast c2 startX startY (min 1024 (cv.W - startX)) (min 1024 (cv.H - startY)) f) c) cv

/-- `applyOptimizedEnhancement` (imageEnhancerCore.js:47-66): look up the
level's strength (no table entry ⇒ the JS throws, modelled as `none`);
strength 0 is a no-op; below 1024·1024 pixels use the single-pass
high-quality sharpening, otherwise the 512-block tiled sharpening; and
when strength exceeds 0.6 additionally run the contrast pass with factor
`(strength − 0.6)·0.5`. -/
def applyOptimizedEnhancement (cv : Canvas) (level : ℕ) : Option Canvas :=
  match enhancementStrength level with
  | none => none
  | some s =>
    some (if s = 0 then cv
      else
        let c1 := if cv.W * cv.H < 1024 * 1024 then applyHighQualitySharpening cv s
                  else applyOptimizedSharpening cv s
        if s > 3/5 then applyContrastEnhancement c1 ((s - 3/5) * (1/2)) else c1)

end ImageEnhancerCore

namespace ImageEnhancerMobile

/-- `deviceCapability.level` (imageProcessor.js:434-471). -/
inductive CapLevel
  | low
  | medium
  | high
deriving DecidableEq

/-- The mobile optimization settings record (imageProcessor.js:474-481). -/
structure OptSettings where
  maxImageSize : ℕ
  maxBatchSize : ℕ
  processingDelay : ℕ
  qualityReduction : ℚ
  enableProgressiveProcessing : Bool
  enableMemoryMonitoring : Bool
deriving DecidableEq

/-- `getOptimizationSettings` (imageProcessor.js:473-507): base settings
overridden per capability tier. -/
def getOptimizationSettings (cap : CapLevel) : OptSettings :=
  let settings : OptSettings :=
    { maxImageSize := 2048 * 1536, maxBatchSize := 1, processingDelay := 200,
      qualityReduction := 1/10, enableProgressiveProcessing := true,
      enableMemoryMonitoring := true }
  match cap with
  | .low =>
    { settings with
        maxImageSize := 1024 * 768
        maxBatchSize := 1
        processingDelay := 500
        qualityReduction := 1/5 }
  | .medium =>
    { settings with
        maxImageSize := 1920 * 1080
        maxBatchSize := 1
        processingDelay := 200
        qualityReduction := 1/10 }
  | .high =>
    { settings with
        maxImageSize := 2560 * 1920
        maxBatchSize := 2
        processingDelay := 100
        qualityReduction := 1/20 }

/-- `adjustForBatteryLevel` (imageProcessor.js:603-619); `cap` is
`this.deviceCapability.level`. -/
def adjustForBatteryLevel (cap : CapLevel) (level : ℚ) (s : OptSettings) : OptSettings :=
  if level < 1/5 then { s with processingDelay := 1000, maxBatchSize := 1 }
  else if level < 1/2 then { s with processingDelay := 500, maxBatchSize := 1 }
  else { s with processingDelay := 200,
                maxBatchSize := if cap = .high then 2 else 1 }

/-- `adjustForChargingState` (imageProcessor.js:621-629).  For the
discharging branch JavaScript adds 100; for the charging branch it takes
`Math.max(100, delay - 100)` (ℕ subtraction agrees with the JS result
because of the 100 floor). -/
def adjustForChargingState (isCharging : Bool) (s : OptSettings) : OptSettings :=
  if isCharging then { s with processingDelay := max 100 (s.processingDelay - 100) }
  else { s with processingDelay := s.processingDelay + 100 }

/-- The plus-shaped 5-point sharpening sum of `applyCPUSharpening`
(imageProcessor.js:780-795): `data[pos]·(1+4s) + data[pos−4]·(−s) +
data[pos+4]·(−s) + data[pos−w·4]·(−s) + data[pos+w·4]·(−s)`, summed in
source order.  Callers only invoke it on interior pixels, so no read is
out of bounds. -/
def plusSum (d : Buf) (w : ℕ) (s : ℚ) (pos : ℕ) : Option ℚ :=
  match d.read pos, d.read (pos - 4), d.read (pos + 4),
        d.read (pos - w * 4), d.read (pos + w * 4) with
  | some c0, some l, some r, some t, some b =>
      some (c0 * (1 + 4*s) + l * (-s) + r * (-s) + t * (-s) + b * (-s))
  | _, _, _, _, _ => none

/-- The output buffer of `applyCPUSharpening`
(imageProcessor.js:774-795): a copy of the input with each interior
colour byte replaced by the clamped plus-kernel sum. -/
def cpuSharpenWrite (w h : ℕ) (s : ℚ) (d : Buf) : Buf :=
  ⟨d.len, fun i =>
    let p := i / 4
    let ch := i % 4
    let x := p % w
    let y := p / w
    if i < w * h * 4 ∧ ch < 3 ∧ 1 ≤ x ∧ x + 1 < w ∧ 1 ≤ y ∧ y + 1 < h then
      storeByte (plusSum d w s i)
    else d.byte i⟩

/-- `applyCPUSharpening` (imageProcessor.js:770-799). -/
def applyCPUSharpening (cv : Canvas) (s : ℚ) : Canvas :=
  let d := getImageData cv 0 0 cv.W cv.H
  putImageData cv (cpuSharpenWrite cv.W cv.H s d) cv.W cv.H 0 0

/-- The reduced strength table of `applyLightweightSharpening`
(imageProcessor.js:740). -/
def lightweightStrengthTable : List ℚ := [0, 1/5, 2/5, 3/5]

/-- `strengths[level] || 0.2` (imageProcessor.js:741): JavaScript `||`
falls back to 0.2 both for a missing entry (`undefined`) and for the
falsy entry `0` at level 0. -/
def lightweightStrength (level : ℕ) : ℚ :=
  match lightweightStrengthTable.get? level with
  | some v => if v = 0 then 1/5 else v
  | none => 1/5

/-- `applyLightweightSharpening` (imageProcessor.js:738-751).  The WebGL
branch (`applyWebGLSharpening`, line 764-768) delegates to
`applyCPUSharpening`, so both branches compute the same result. -/
def applyLightweightSharpening (cv : Canvas) (level : ℕ) : Canvas :=
  let strength := lightweightStrength level
  if strength = 0 then cv else applyCPUSharpening cv strength

end ImageEnhancerMobile

namespace PerformanceMonitor

/-- The live inputs read by `shouldPauseProcessing`: the memory usage
ratio (absent when `memoryManager.getMemoryInfo()` is unavailable), the
measured frame rate (absent before the first measurement), and the
per-key error counts. -/
structure MonitorState where
  usageRatio : Option ℚ
  fps : Option ℚ
  errorCounts : List ℕ

/-- `memoryInfo?.usageRatio > 0.9`: an absent value compares false. -/
def exceeds (o : Option ℚ) (t : ℚ) : Bool :=
  match o with
  | some r => decide (t < r)
  | none => false

/-- `this.performanceData.fps < 10`: an absent value compares false. -/
def below (o : Option ℚ) (t : ℚ) : Bool :=
  match o with
  | some v => decide (v < t)
  | none => false

/-- `shouldPauseProcessing` (performanceMonitor.js:252-273), returning
the critical reason when processing should pause. -/
def shouldPauseProcessing (st : MonitorState) : Option String :=
  if exceeds st.usageRatio (9/10) then some "memory_critical"
  else if below st.fps 10 then some "fps_critical"
  else if 5 < st.errorCounts.foldl (· + ·) 0 then some "errors_critical"
  else none

end PerformanceMonitor

namespace ImageEnhancerCore

/-- A file item as handled by the batch operations; the enhancement of
the underlying data URL (decode, filter, re-encode — performed through
browser APIs) is abstracted as a fallible function on the payload. -/
structure BFile where
  name : String
  imageData : String
  enhanced : Bool
  enhancementLevel : ℕ
deriving DecidableEq

/-- `enhanceImageSafely` (imageEnhancerCore.js:13-19): level 0 returns
the input data URL itself; otherwise the environment-dependent
enhancement `eo` runs and may fail. -/
def enhanceImageSafely (eo : String → Except String String) (level : ℕ)
    (img : String) : Except String String :=
  if level = 0 then .ok img else eo img

/-- One item of the batch (imageEnhancerCore.js:293-314): on success the
file is rebuilt with the enhanced payload and markers, on any error the
original file object is returned (`return file; // 返回原图`). -/
def tryEnhance (eo : String → Except String String) (level : ℕ) (f : BFile) : BFile :=
  match enhanceImageSafely eo level f.imageData with
  | .ok d => { f with imageData := d, enhanced := true, enhancementLevel := level }
  | .error _ => f

/-- The chunked loop of `enhanceImagesBatch`
(imageEnhancerCore.js:291-329): slice off `bs` files, process them
(per-item failures absorbed by `step`), append the results, then consult
`shouldPauseProcessing`; a pause reason aborts the whole batch by
throwing `处理暂停: <reason>`, discarding the accumulated results.
`pauseAt k` is the monitor's answer at the `k`-th chunk boundary.  A
batch size of 0 would keep the JavaScript loop at `i = 0` forever; that
case is unreachable (`optimizeForDevice().batchSize ≥ 1`) and is
modelled as an error. -/
def batchLoop (step : BFile → BFile) (pauseAt : ℕ → Option String) (bs : ℕ)
    (k : ℕ) (remaining acc : List BFile) : Except String (List BFile) :=
  if hrem : remaining = [] then .ok acc
  else if hbs : bs = 0 then .error "nonterminating"
  else
    let batch := remaining.take bs
    let acc2 := acc ++ batch.map step
    match pauseAt k with
    | some reason => .error ("处理暂停: " ++ reason)
    | none => batchLoop step pauseAt bs (k + 1) (remaining.drop bs) acc2
termination_by remaining.length
decreasing_by
  simp only [List.length_drop]
  have hpos := List.length_pos.mpr hrem
  omega

/-- `enhanceImagesBatch` (imageEnhancerCore.js:285-332): level 0 returns
the input list itself; otherwise the chunked loop runs from index 0 with
an empty accumulator. -/
def enhanceImagesBatch (eo : String → Except String String) (level : ℕ)
    (pauseAt : ℕ → Option String) (bs : ℕ) (files : List BFile) :
    Except String (List BFile) :=
  if level = 0 then .ok files
  else batchLoop (tryEnhance eo level) pauseAt bs 0 files []

end ImageEnhancerCore

namespace ImageEnhancerMobile

open ImageEnhancerCore (BFile)

/-- `enhanceImageMobile` (imageProcessor.js:692-710): level 0 returns
the input; otherwise resizing plus lightweight enhancement (browser
work, abstracted as `em`) runs and may fail — its errors are rethrown. -/
def enhanceImageMobile (em : String → Except String String) (level : ℕ)
    (img : String) : Except String String :=
  if level = 0 then .ok img else em img

/-- `processBatchMobile` (imageProcessor.js:801-840): a sequential loop;
each success pushes the rebuilt file, each failure pushes the original
(`results.push(file); // 使用原图`).  Device pauses only wait, they never
drop or reorder items, so the result is an element-wise map. -/
def processBatchMobile (em : String → Except String String) (level : ℕ)
    (files : List BFile) : List BFile :=
  files.map fun f =>
    match enhanceImageMobile em level f.imageData with
    | .ok d => { f with imageData := d, enhanced := true, enhancementLevel := level }
    | .error _ => f

end ImageEnhancerMobile

namespace OrderDetector

/-- A file as seen by the order detector: its name and its unique id. -/
structure FileN where
  name : String
  id : ℕ
deriving DecidableEq

/-- `String.prototype.toLowerCase()`: ASCII lowering; the Chinese cover
names used by the detector have no case, so `Char.toLower` agrees with
JavaScript on every name involved. -/
def lowerStr (s : String) : String := ⟨s.data.map Char.toLower⟩

/-- `this.coverNames` (part_005:5-11), verbatim. -/
def coverNames : List String :=
  ["cover", "Cover", "COVER",
   "cover.jpg", "cover.png", "cover.jpeg", "cover.gif", "cover.webp",
   "Cover.jpg", "Cover.png", "Cover.jpeg", "Cover.gif", "Cover.webp",
   "COVER.JPG", "COVER.PNG", "COVER.JPEG", "COVER.GIF", "COVER.WEBP",
   "封面", "封面.jpg", "封面.png", "封面.jpeg", "封面.gif", "封面.webp"]

/-- `isCoverFile` (part_005:158-164): the lowered name equals, or starts
with, some lowered cover name. -/
def isCoverFile (fileName : String) : Bool :=
  let lowerName := (lowerStr fileName).data
  coverNames.any fun c =>
    lowerName == (lowerStr c).data || (lowerStr c).data.isPrefixOf lowerName

/-- `fileName.replace(/\.[^/.]+$/, '')`: drop a final `.ext` whose `ext`
is nonempty and contains no dot and no slash.  The characters between
the last dot and the end contain no dot by construction, so only the
slash must be checked. -/
def stripExt (s : String) : String :=
  let cs := s.data
  let rev := cs.reverse
  match rev.findIdx? (· == '.') with
  | some k =>
    if 0 < k && (rev.take k).all (fun c => !(c == '/')) then
      ⟨cs.take (cs.length - (k + 1))⟩
    else s
  | none => s

/-- `/^(\d+)/` (part_005:14): the leading digit run, if any. -/
def pStart (cs : List Char) : Option (List Char) :=
  let run := cs.takeWhile Char.isDigit
  if run == [] then none else some run

/-- `/(\d+)/` (part_005:15): the first digit run anywhere. -/
def pAny (cs : List Char) : Option (List Char) :=
  let run := (cs.dropWhile (fun c => !c.isDigit)).takeWhile Char.isDigit
  if run == [] then none else some run

/-- `/[\D]*(\d+)[\D]*$/` (part_005:16): after backtracking this matches
exactly when the string has a digit, capturing the last digit run (the
run that is followed by non-digits only). -/
def pEnd (cs : List Char) : Option (List Char) :=
  let run := ((cs.reverse.dropWhile (fun c => !c.isDigit)).takeWhile Char.isDigit).reverse
  if run == [] then none else some run

/-- `/.*?(\d+).*/` (part_005:17): the lazy prefix makes the capture the
first digit run, as in `pAny`. -/
def pContain (cs : List Char) : Option (List Char) := pAny cs

/-- `parseInt(match[1], 10)` on a digit run. -/
def parseIntDigits (l : List Char) : ℕ :=
  l.foldl (fun n c => n * 10 + (c.toNat - 48)) 0

/-- Stable insertion of one element, keeping earlier elements first
among equals (`le` is the non-strict "comes first" relation). -/
def insertSorted (le : α → α → Bool) (a : α) : List α → List α
  | [] => [a]
  | b :: t => if le a b then a :: b :: t else b :: insertSorted le a t

/-- `Array.prototype.sort` with a comparator: modern JavaScript sorts
are stable, as is this insertion sort. -/
def sortJS (le : α → α → Bool) : List α → List α
  | [] => []
  | a :: t => insertSorted le a (sortJS le t)

/-- `a.name.localeCompare(b.name) ≤ 0` for the ASCII filenames involved:
code-point lexicographic order. -/
def lexLe : List Char → List Char → Bool
  | [], _ => true
  | _ :: _, [] => false
  | a :: as, b :: bs => if a == b then lexLe as bs else decide (a.toNat < b.toNat)

/-- `isConsecutiveSequence` (part_005:147-156) on the ascending-sorted
numbers: adjacent gaps of more than 2 are rejected. -/
def consecCheck : List ℕ → Bool
  | [] => true
  | [_] => true
  | a :: b :: t => decide (b - a ≤ 2) && consecCheck (b :: t)

/-- `extractNumbers` (part_005:108-145): strip extensions, extract a
number per file by the given pattern, require at least 70 % of ALL the
files to yield a number (`extracted.length < files.length * 0.7` fails),
then accept when the sorted numbers are near-consecutive or have a
reasonable range, returning the files sorted by number (stably) and the
confidence.  (Exact `7/10` differs from the float `0.7` only on
boundary pixel counts never reached here, e.g. `10 * 0.7` being slightly
above 7 in binary floating point.) -/
def extractNumbers (files : List FileN) (pat : List Char → Option (List Char)) :
    Option (List FileN × ℚ) :=
  let extracted := files.filterMap fun f =>
    (pat (stripExt f.name).data).map fun ds => (f, parseIntDigits ds)
  if (extracted.length : ℚ) < (files.length : ℚ) * (7/10) then none
  else
    let numbers := sortJS (fun a b => decide (a ≤ b)) (extracted.map Prod.snd)
    let isConsecutive := consecCheck numbers
    let hasReasonableRange :=
      decide (numbers.getLast?.getD 0 - numbers.head?.getD 0 < files.length * 2)
    if isConsecutive || hasReasonableRange then
      some ((sortJS (fun a b => decide (a.2 ≤ b.2)) extracted).map Prod.fst,
            if isConsecutive then 1 else 4/5)
    else none

/-- `analyzeNumbering` (part_005:85-106): try the four patterns in
order, first success wins. -/
def analyzeNumbering (files : List FileN) : Option (List FileN × ℚ) :=
  match extractNumbers files pStart with
  | some r => some r
  | none =>
  match extractNumbers files pAny with
  | some r => some r
  | none =>
  match extractNumbers files pEnd with
  | some r => some r
  | none => extractNumbers files pContain

/-- The fields of the analysis record relevant to ordering
(part_005:49-83). -/
structure Analysis where
  hasValidOrder : Bool
  hasCover : Bool
  coverFiles : List FileN
  numberedFiles : List FileN
deriving DecidableEq

/-- `analyzeFileNames` (part_005:49-83): collect cover files (by full
name or by extension-stripped name), then take the numbering analysis. -/
def analyzeFileNames (files : List FileN) : Analysis :=
  let covers := files.filter fun f =>
    isCoverFile f.name || isCoverFile (stripExt f.name)
  match analyzeNumbering files with
  | some (ord, _) => ⟨true, !covers.isEmpty, covers, ord⟩
  | none => ⟨false, !covers.isEmpty, covers, []⟩

/-- `applyDetectedOrder` (part_005:185-215): covers first, then either
the numbered files or the name-sorted files, minus the covers (by id). -/
def applyDetectedOrder (files : List FileN) (a : Analysis) : List FileN :=
  let base := if a.hasCover && !a.coverFiles.isEmpty then a.coverFiles else []
  if a.hasValidOrder && !a.numberedFiles.isEmpty then
    base ++ a.numberedFiles.filter fun f => !(a.coverFiles.any fun cf => cf.id == f.id)
  else
    base ++ sortJS (fun x y => lexLe x.name.data y.name.data)
      (files.filter fun f => !(a.coverFiles.any fun cf => cf.id == f.id))

/-- `detectOrder` (part_005:21-47): with a valid order the detected
order is applied; otherwise the modal is shown and no order is applied
(`none`). -/
def detectOrder (files : List FileN) : Option (List FileN) :=
  if files.isEmpty then none
  else
    let a := analyzeFileNames files
    if a.hasValidOrder then some (applyDetectedOrder files a) else none

/-- `continueProcessing` (part_005:289-313): the modal's fallback, only
run after the user confirms — sort by name, hoist the covers. -/
def continueProcessing (files : List FileN) (a : Analysis) : List FileN :=
  let sorted := sortJS (fun x y => lexLe x.name.data y.name.data) files
  if a.hasCover && !a.coverFiles.isEmpty then
    a.coverFiles ++ sorted.filter fun f => !(a.coverFiles.any fun cf => cf.id == f.id)
  else sorted

end OrderDetector

/-! ### Formulas written from the specification's words, for comparison -/

/-- The spec's contrast coefficient: `c = (f+1)²/(f·(f+1)+1)`. -/
def specContrastCoef (f : ℚ) : ℚ := (f + 1)^2 / (f * (f + 1) + 1)

/-- The spec's per-channel contrast stretch:
`output = (input/255 − 0.5) × c + 0.5`, scaled back to bytes and clamped
to `[0,255]`. -/
def specContrastVal (f : ℚ) (v : ℕ) : ℕ :=
  jsRound ((((v : ℚ) / 255 - 1/2) * specContrastCoef f + 1/2) * 255)

/-- The spec's 3×3 Laplacian-style sharpen at one pixel: centre weight
`1 + 4·strength`, four orthogonal neighbours `−strength`, corners `0`,
clamped to `[0,255]`. -/
def specSharpVal (s : ℚ) (center up down left right : ℕ) : ℕ :=
  jsRound ((1 + 4*s) * (center : ℚ) - s * ((up : ℚ) + down + left + right))

/-! ### Concrete instances used by the counterexamples and witnesses -/

/-- A 4×4 RGBA canvas, fully transparent-black except that pixel (1,1)
has red 255, and every alpha byte is 255.  Byte 20 is red of (1,1). -/
def cexCanvasC1 : Canvas :=
  ⟨4, 4, fun i => if i = 20 then 255 else if i % 4 = 3 then 255 else 0⟩

/-- A 4×4 RGBA canvas, colours all 0, alpha 255 everywhere except alpha
7 at pixel (2,2) (byte 43).  Byte 23 is alpha of (1,1). -/
def cexCanvasC4 : Canvas :=
  ⟨4, 4, fun i => if i = 43 then 7 else if i % 4 = 3 then 255 else 0⟩

/-- A 3×3 RGBA canvas with red 100 at the centre pixel (1,1) (byte 16),
other colours 0, alpha 255. -/
def cexCanvasC10 : Canvas :=
  ⟨3, 3, fun i => if i = 16 then 100 else if i % 4 = 3 then 255 else 0⟩

/-- A 3×3 canvas with all colour bytes 50 and alpha 255. -/
def witnessCanvas : Canvas := ⟨3, 3, fun i => if i % 4 = 3 then 255 else 50⟩

/-- The filename list of the order-inference example. -/
def files9 : List OrderDetector.FileN :=
  [⟨"cover.jpg", 0⟩, ⟨"001.jpg", 1⟩, ⟨"002.jpg", 2⟩]

/-- Two concrete batch items. -/
def fileA : ImageEnhancerCore.BFile := ⟨"a.jpg", "dataA", false, 0⟩

def fileB : ImageEnhancerCore.BFile := ⟨"b.jpg", "dataB", false, 0⟩

/-- A concrete always-succeeding per-item enhancement environment. -/
def okEnhance : String → Except String String := fun sIn => .ok (sIn ++ "#")

/-- A monitor that never reports a critical condition. -/
def pauseNever : ℕ → Option String := fun _ => none

/-- A monitor state with memory usage ratio 0.95 — above the 0.9
critical threshold. -/
def criticalState : PerformanceMonitor.MonitorState := ⟨some (19/20), none, []⟩

/-! ### Helper lemmas -/

theorem jsRound_le255 (q : ℚ) : jsRound q ≤ 255 := by
  simp only [jsRound]
  set v := max 0 (min 255 q) with hv
  have hv255 : v ≤ 255 := max_le (by norm_num) (min_le_left _ _)
  have hv0 : (0:ℚ) ≤ v := le_max_left _ _
  have hf0 : (0:ℤ) ≤ ⌊v⌋ := Int.floor_nonneg.mpr hv0
  have hf255 : ⌊v⌋ ≤ 255 := by
    have := Int.floor_le_floor hv255
    simpa using this
  split_ifs with h1 h2 h3
  · omega
  · have hge : v - ⌊v⌋ ≥ 1/2 := le_of_not_lt h1
    have hlt : (⌊v⌋ : ℚ) + 1/2 ≤ 255 := by linarith
    have : ⌊v⌋ ≤ 254 := by
      by_contra hcon
      push_neg at hcon
      have h255 : ⌊v⌋ = 255 := by omega
      rw [h255] at hlt
      norm_num at hlt
    omega
  · omega
  · have hge : v - ⌊v⌋ ≥ 1/2 := le_of_not_lt h1
    have hlt : (⌊v⌋ : ℚ) + 1/2 ≤ 255 := by linarith
    have : ⌊v⌋ ≤ 254 := by
      by_contra hcon
      push_neg at hcon
      have h255 : ⌊v⌋ = 255 := by omega
      rw [h255] at hlt
      norm_num at hlt
    omega

theorem jsRound_natCast (n : ℕ) (h : n ≤ 255) : jsRound (n : ℚ) = n := by
  simp only [jsRound]
  have hmin : min 255 (n:ℚ) = n := min_eq_right (by exact_mod_cast h)
  have hmax : max 0 (n:ℚ) = (n:ℚ) := max_eq_right n.cast_nonneg
  rw [hmin, hmax, Int.floor_natCast]
  have hz : (n:ℚ) - (n:ℤ) = 0 := by push_cast; ring
  rw [hz]
  norm_num

theorem storeByte_some_nat (n : ℕ) (h : n ≤ 255) : storeByte (some (n:ℚ)) = n := by
  simp [storeByte, jsRound_natCast n h]

theorem storeByte_le255 (o : Option ℚ) : storeByte o ≤ 255 := by
  cases o with
  | none => simp [storeByte]
  | some q => simpa [storeByte] using jsRound_le255 q

theorem pixel_lt {x y W H : ℕ} (hx : x < W) (hy : y < H) : y * W + x < W * H := by
  calc y * W + x < y * W + W := by omega
    _ = (y + 1) * W := by ring
    _ ≤ H * W := Nat.mul_le_mul_right _ (by omega)
    _ = W * H := Nat.mul_comm _ _

theorem flat_lt {p n c : ℕ} (hp : p < n) (hc : c < 4) : p * 4 + c < n * 4 := by omega

theorem rowcol_mod (y x W : ℕ) (hx : x < W) : (y * W + x) % W = x := by
  rw [Nat.add_comm, Nat.mul_comm, Nat.add_mul_mod_self_left]
  exact Nat.mod_eq_of_lt hx

theorem rowcol_div (y x W : ℕ) (hx : x < W) : (y * W + x) / W = y := by
  have hW : 0 < W := by omega
  rw [Nat.add_comm, Nat.mul_comm, Nat.add_mul_div_left _ _ hW, Nat.div_eq_of_lt hx, Nat.zero_add]

theorem p_decomp (p W : ℕ) : (p / W) * W + p % W = p := by
  rw [Nat.mul_comm]
  exact Nat.div_add_mod p W

theorem Buf.read_in (d : Buf) {i : ℕ} (h : i < d.len) :
    d.read i = some ((d.byte i : ℚ)) := by
  simp [Buf.read, h]

/-- `getImageData` of the full canvas reads back the backing store. -/
theorem getImageData_full (cv : Canvas) (j : ℕ) :
    (getImageData cv 0 0 cv.W cv.H).byte j
      = if j < cv.W * cv.H * 4 then cv.pix j else 0 := by
  simp only [getImageData]
  by_cases hj : j < cv.W * cv.H * 4
  · have hW : cv.W ≠ 0 := by rintro h0; rw [h0] at hj; simp at hj
    have hH : cv.H ≠ 0 := by rintro h0; rw [h0] at hj; simp at hj
    have hp : j / 4 < cv.W * cv.H := by omega
    have hk : j / 4 % cv.W < cv.W := Nat.mod_lt _ (by omega)
    have hjdiv : j / 4 / cv.W < cv.H := by
      rw [Nat.div_lt_iff_lt_mul (by omega : 0 < cv.W)]
      calc j / 4 < cv.W * cv.H := hp
        _ = cv.H * cv.W := Nat.mul_comm _ _
    rw [if_pos ⟨hj, by omega, by omega⟩, if_pos hj]
    congr 1
    rw [Nat.zero_add, Nat.zero_add, p_decomp]
    omega
  · rw [if_neg (by tauto), if_neg hj]

/-- `putImageData` of a full-canvas rectangle at the origin overwrites
every in-range byte with the stored source byte. -/
theorem putImageData_full (cv : Canvas) (src : Buf) (j : ℕ) :
    (putImageData cv src cv.W cv.H 0 0).pix j
      = if j < cv.W * cv.H * 4 then storeByte (src.read j) else cv.pix j := by
  simp only [putImageData]
  by_cases hj : j < cv.W * cv.H * 4
  · have hW : cv.W ≠ 0 := by rintro h0; rw [h0] at hj; simp at hj
    have hH : cv.H ≠ 0 := by rintro h0; rw [h0] at hj; simp at hj
    have hp : j / 4 < cv.W * cv.H := by omega
    have hk : j / 4 % cv.W < cv.W := Nat.mod_lt _ (by omega)
    have hjdiv : j / 4 / cv.W < cv.H := by
      rw [Nat.div_lt_iff_lt_mul (by omega : 0 < cv.W)]
      calc j / 4 < cv.W * cv.H := hp
        _ = cv.H * cv.W := Nat.mul_comm _ _
    rw [if_pos ⟨hj, Nat.zero_le _, by omega, Nat.zero_le _, by omega⟩, if_pos hj]
    congr 2
    rw [Nat.sub_zero, Nat.sub_zero, p_decomp]
    omega
  · rw [if_neg (by tauto), if_neg hj]

namespace ImageEnhancerCore

theorem sharpenWrite_len (w h : ℕ) (s : ℚ) (d : Buf) : (sharpenWrite w h s d).len = d.len := rfl

theorem getImageData_len (cv : Canvas) (x y w h : ℕ) :
    (getImageData cv x y w h).len = w * h * 4 := rfl

/-- Writing phase at an interior colour position. -/
theorem sharpenWrite_at (w h : ℕ) (s : ℚ) (d : Buf) (x y c : ℕ)
    (hx1 : 1 ≤ x) (hx2 : x + 1 < w) (hy1 : 1 ≤ y) (hy2 : y + 1 < h) (hc : c < 3) :
    (sharpenWrite w h s d).byte ((y * w + x) * 4 + c) = storeByte (convSum d w s x y c) := by
  simp only [sharpenWrite]
  have hx : x < w := by omega
  have hy : y < h := by omega
  have hdiv : ((y * w + x) * 4 + c) / 4 = y * w + x := by omega
  have hmod : ((y * w + x) * 4 + c) % 4 = c := by omega
  rw [hdiv, hmod, rowcol_mod _ _ _ hx, rowcol_div _ _ _ hx]
  rw [if_pos ⟨flat_lt (pixel_lt hx hy) (by omega), hc, hx1, hx2, hy1, hy2⟩]

/-- The convolution sum on in-range interior positions: all nine reads
succeed and the corner kernel entries vanish, leaving the plus-shaped
Laplacian combination. -/
theorem convSum_eval (d : Buf) (w h : ℕ) (s : ℚ) (x y c : ℕ) (hlen : d.len = w * h * 4)
    (hx1 : 1 ≤ x) (hx2 : x + 1 < w) (hy1 : 1 ≤ y) (hy2 : y + 1 < h) (hc : c < 4) :
    convSum d w s x y c =
      some ((1 + 4*s) * (d.byte ((y*w+x)*4+c))
        - s * ((d.byte (((y-1)*w+x)*4+c)) + (d.byte (((y+1)*w+x)*4+c))
             + (d.byte ((y*w+(x-1))*4+c)) + (d.byte ((y*w+(x+1))*4+c)))) := by
  have hb : ∀ x' y', x' < w → y' < h → (y' * w + x') * 4 + c < d.len := by
    intro x' y' hx' hy'
    rw [hlen]
    exact flat_lt (pixel_lt hx' hy') hc
  unfold convSum
  rw [Buf.read_in d (hb (x-1) (y-1) (by omega) (by omega)),
      Buf.read_in d (hb x (y-1) (by omega) (by omega)),
      Buf.read_in d (hb (x+1) (y-1) (by omega) (by omega)),
      Buf.read_in d (hb (x-1) y (by omega) (by omega)),
      Buf.read_in d (hb x y (by omega) (by omega)),
      Buf.read_in d (hb (x+1) y (by omega) (by omega)),
      Buf.read_in d (hb (x-1) (y+1) (by omega) (by omega)),
      Buf.read_in d (hb x (y+1) (by omega) (by omega)),
      Buf.read_in d (hb (x+1) (y+1) (by omega) (by omega))]
  simp only []
  congr 1
  ring

/-- The single-pass high-quality sharpening at an interior colour byte:
exactly the 3×3 Laplacian sharpen with centre `1+4s`, orthogonal
neighbours `−s` and zero corners, clamped to `[0,255]`. -/
theorem applyHighQualitySharpening_interior (cv : Canvas) (s : ℚ) (x y c : ℕ)
    (hx1 : 1 ≤ x) (hx2 : x + 1 < cv.W) (hy1 : 1 ≤ y) (hy2 : y + 1 < cv.H) (hc : c < 3) :
    (applyHighQualitySharpening cv s).pix ((y * cv.W + x) * 4 + c)
      = jsRound ((1 + 4*s) * (cv.pix ((y*cv.W+x)*4+c))
          - s * ((cv.pix (((y-1)*cv.W+x)*4+c)) + (cv.pix (((y+1)*cv.W+x)*4+c))
               + (cv.pix ((y*cv.W+(x-1))*4+c)) + (cv.pix ((y*cv.W+(x+1))*4+c)))) := by
  have hx : x < cv.W := by omega
  have hy : y < cv.H := by omega
  have hidx : (y * cv.W + x) * 4 + c < cv.W * cv.H * 4 :=
    flat_lt (pixel_lt hx hy) (by omega)
  unfold applyHighQualitySharpening
  rw [putImageData_full, if_pos hidx]
  rw [Buf.read_in _ (by rw [sharpenWrite_len, getImageData_len]; exact hidx)]
  rw [sharpenWrite_at _ _ _ _ _ _ _ hx1 hx2 hy1 hy2 hc]
  rw [convSum_eval _ _ cv.H _ _ _ _ (getImageData_len cv 0 0 cv.W cv.H) hx1 hx2 hy1 hy2 (by omega)]
  have hread : ∀ x' y', x' < cv.W → y' < cv.H →
      (getImageData cv 0 0 cv.W cv.H).byte ((y' * cv.W + x') * 4 + c)
        = cv.pix ((y' * cv.W + x') * 4 + c) := by
    intro x' y' hx' hy'
    rw [getImageData_full, if_pos (flat_lt (pixel_lt hx' hy') (by omega))]
  rw [hread x y hx hy, hread x (y-1) hx (by omega), hread x (y+1) hx (by omega),
      hread (x-1) y (by omega) hy, hread (x+1) y (by omega) hy]
  simp only [storeByte]
  exact jsRound_natCast _ (jsRound_le255 _)

end ImageEnhancerCore

namespace ImageEnhancerMobile

theorem cpuSharpenWrite_len (w h : ℕ) (s : ℚ) (d : Buf) :
    (cpuSharpenWrite w h s d).len = d.len := rfl

/-- The plus-shaped sum on in-range interior positions. -/
theorem plusSum_eval (d : Buf) (w h : ℕ) (s : ℚ) (x y c : ℕ) (hlen : d.len = w * h * 4)
    (hx1 : 1 ≤ x) (hx2 : x + 1 < w) (hy1 : 1 ≤ y) (hy2 : y + 1 < h) (hc : c < 4) :
    plusSum d w s ((y * w + x) * 4 + c) =
      some ((1 + 4*s) * (d.byte ((y*w+x)*4+c))
        - s * ((d.byte (((y-1)*w+x)*4+c)) + (d.byte (((y+1)*w+x)*4+c))
             + (d.byte ((y*w+(x-1))*4+c)) + (d.byte ((y*w+(x+1))*4+c)))) := by
  have hb : ∀ x' y', x' < w → y' < h → (y' * w + x') * 4 + c < d.len := by
    intro x' y' hx' hy'
    rw [hlen]
    exact flat_lt (pixel_lt hx' hy') hc
  have hsub : (y - 1) * w + w = y * w := by
    have h1 := Nat.sub_mul y 1 w
    have h2 : 1 * w ≤ y * w := Nat.mul_le_mul_right w hy1
    omega
  have hadd : (y + 1) * w = y * w + w := by ring
  have e1 : (y * w + x) * 4 + c - 4 = (y * w + (x - 1)) * 4 + c := by omega
  have e2 : (y * w + x) * 4 + c + 4 = (y * w + (x + 1)) * 4 + c := by omega
  have e3 : (y * w + x) * 4 + c - w * 4 = ((y - 1) * w + x) * 4 + c := by omega
  have e4 : (y * w + x) * 4 + c + w * 4 = ((y + 1) * w + x) * 4 + c := by omega
  unfold plusSum
  rw [e1, e2, e3, e4,
      Buf.read_in d (hb x y (by omega) (by omega)),
      Buf.read_in d (hb (x-1) y (by omega) (by omega)),
      Buf.read_in d (hb (x+1) y (by omega) (by omega)),
      Buf.read_in d (hb x (y-1) (by omega) (by omega)),
      Buf.read_in d (hb x (y+1) (by omega) (by omega))]
  simp only []
  congr 1
  ring

theorem cpuSharpenWrite_at (w h : ℕ) (s : ℚ) (d : Buf) (x y c : ℕ)
    (hx1 : 1 ≤ x) (hx2 : x + 1 < w) (hy1 : 1 ≤ y) (hy2 : y + 1 < h) (hc : c < 3) :
    (cpuSharpenWrite w h s d).byte ((y * w + x) * 4 + c)
      = storeByte (plusSum d w s ((y * w + x) * 4 + c)) := by
  simp only [cpuSharpenWrite]
  have hx : x < w := by omega
  have hy : y < h := by omega
  have hdiv : ((y * w + x) * 4 + c) / 4 = y * w + x := by omega
  have hmod : ((y * w + x) * 4 + c) % 4 = c := by omega
  rw [hdiv, hmod, rowcol_mod _ _ _ hx, rowcol_div _ _ _ hx]
  rw [if_pos ⟨flat_lt (pixel_lt hx hy) (by omega), hc, hx1, hx2, hy1, hy2⟩]

/-- The lightweight CPU sharpening at an interior colour byte: the
plus-shaped 5-point kernel with centre `1+4s` and orthogonal `−s`,
clamped to `[0,255]`. -/
theorem applyCPUSharpening_interior (cv : Canvas) (s : ℚ) (x y c : ℕ)
    (hx1 : 1 ≤ x) (hx2 : x + 1 < cv.W) (hy1 : 1 ≤ y) (hy2 : y + 1 < cv.H) (hc : c < 3) :
    (applyCPUSharpening cv s).pix ((y * cv.W + x) * 4 + c)
      = jsRound ((1 + 4*s) * (cv.pix ((y*cv.W+x)*4+c))
          - s * ((cv.pix (((y-1)*cv.W+x)*4+c)) + (cv.pix (((y+1)*cv.W+x)*4+c))
               + (cv.pix ((y*cv.W+(x-1))*4+c)) + (cv.pix ((y*cv.W+(x+1))*4+c)))) := by
  have hx : x < cv.W := by omega
  have hy : y < cv.H := by omega
  have hidx : (y * cv.W + x) * 4 + c < cv.W * cv.H * 4 :=
    flat_lt (pixel_lt hx hy) (by omega)
  unfold applyCPUSharpening
  rw [putImageData_full, if_pos hidx]
  rw [Buf.read_in _ (by
    rw [cpuSharpenWrite_len, ImageEnhancerCore.getImageData_len]; exact hidx)]
  rw [cpuSharpenWrite_at _ _ _ _ _ _ _ hx1 hx2 hy1 hy2 hc]
  rw [plusSum_eval _ _ cv.H _ _ _ _ (ImageEnhancerCore.getImageData_len cv 0 0 cv.W cv.H)
      hx1 hx2 hy1 hy2 (by omega)]
  have hread : ∀ x' y', x' < cv.W → y' < cv.H →
      (getImageData cv 0 0 cv.W cv.H).byte ((y' * cv.W + x') * 4 + c)
        = cv.pix ((y' * cv.W + x') * 4 + c) := by
    intro x' y' hx' hy'
    rw [getImageData_full, if_pos (flat_lt (pixel_lt hx' hy') (by omega))]
  rw [hread x y hx hy, hread x (y-1) hx (by omega), hread x (y+1) hx (by omega),
      hread (x-1) y (by omega) hy, hread (x+1) y (by omega) hy]
  simp only [storeByte]
  exact jsRound_natCast _ (jsRound_le255 _)

end ImageEnhancerMobile

namespace ImageEnhancerCore

theorem centerCopy_len (w bw bh : ℕ) (nd d : Buf) :
    (centerCopy w bw bh nd d).len = bw * bh * 4 := rfl

/-- The centre copy always reads the grabbed buffers at the constant
offset `(px + 1, py + 1)`. -/
theorem centerCopy_at (w bw bh : ℕ) (nd d : Buf) (px py c : ℕ)
    (hpx : px < bw) (hpy : py < bh) (hc : c < 4) :
    (centerCopy w bw bh nd d).byte ((py * bw + px) * 4 + c)
      = if c < 3 then storeByte (nd.read (((py + 1) * w + (px + 1)) * 4 + c))
        else storeByte (d.read (((py + 1) * w + (px + 1)) * 4 + c)) := by
  simp only [centerCopy]
  have hdiv : ((py * bw + px) * 4 + c) / 4 = py * bw + px := by omega
  have hmod : ((py * bw + px) * 4 + c) % 4 = c := by omega
  rw [hdiv, hmod, rowcol_mod _ _ _ hpx, rowcol_div _ _ _ hpx]
  rw [if_pos (flat_lt (pixel_lt hpx hpy) hc)]

/-- A single `processImageBlock` covering the whole canvas from the
origin writes, at every pixel `(px, py)` whose down-right neighbour
`(px+1, py+1)` is interior, the convolution value that belongs to
`(px+1, py+1)` — the output is shifted one pixel up-left, because the
centre copy offset `padding = 1` is applied even though the grabbed
region was clamped at the canvas border and has no halo. -/
theorem processImageBlock_origin_rgb (cv : Canvas) (s : ℚ) (px py c : ℕ)
    (hx : px + 2 < cv.W) (hy : py + 2 < cv.H) (hc : c < 3) :
    (processImageBlock cv 0 0 cv.W cv.H s).pix ((py * cv.W + px) * 4 + c)
      = jsRound ((1 + 4*s) * (cv.pix (((py+1)*cv.W+(px+1))*4+c))
          - s * ((cv.pix ((py*cv.W+(px+1))*4+c)) + (cv.pix (((py+2)*cv.W+(px+1))*4+c))
               + (cv.pix (((py+1)*cv.W+px)*4+c)) + (cv.pix (((py+1)*cv.W+(px+2))*4+c)))) := by
  have hpx : px < cv.W := by omega
  have hpy : py < cv.H := by omega
  have hmin1 : min cv.W (cv.W + 2) = cv.W := by omega
  have hmin2 : min cv.H (cv.H + 2) = cv.H := by omega
  have hidx : (py * cv.W + px) * 4 + c < cv.W * cv.H * 4 :=
    flat_lt (pixel_lt hpx hpy) (by omega)
  simp only [processImageBlock, Nat.zero_sub, Nat.sub_zero, hmin1, hmin2]
  rw [putImageData_full, if_pos hidx]
  rw [Buf.read_in _ (by rw [centerCopy_len]; exact hidx)]
  rw [centerCopy_at _ _ _ _ _ _ _ _ hpx hpy (by omega), if_pos hc]
  have hsh : ((py + 1) * cv.W + (px + 1)) * 4 + c < cv.W * cv.H * 4 :=
    flat_lt (pixel_lt (by omega) (by omega)) (by omega)
  rw [Buf.read_in _ (by rw [sharpenWrite_len, getImageData_len]; exact hsh)]
  rw [sharpenWrite_at _ _ _ _ (px + 1) (py + 1) _ (by omega) (by omega) (by omega) (by omega) hc]
  rw [convSum_eval _ _ cv.H _ _ _ _ (getImageData_len cv 0 0 cv.W cv.H)
      (by omega) (by omega) (by omega) (by omega) (by omega)]
  have hread : ∀ x' y', x' < cv.W → y' < cv.H →
      (getImageData cv 0 0 cv.W cv.H).byte ((y' * cv.W + x') * 4 + c)
        = cv.pix ((y' * cv.W + x') * 4 + c) := by
    intro x' y' hx' hy'
    rw [getImageData_full, if_pos (flat_lt (pixel_lt hx' hy') (by omega))]
  have hup : py + 1 - 1 = py := by omega
  have hleft : px + 1 - 1 = px := by omega
  rw [hup, hleft, hread (px+1) (py+1) (by omega) (by omega),
      hread (px+1) py (by omega) (by omega), hread (px+1) (py+2) (by omega) (by omega),
      hread px (py+1) (by omega) (by omega), hread (px+2) (py+1) (by omega) (by omega)]
  simp only [storeByte]
  rw [jsRound_natCast _ (jsRound_le255 _), jsRound_natCast _ (jsRound_le255 _)]

/-- The same shift affects the alpha byte: the pixel `(px, py)` of the
block output receives the alpha of `(px+1, py+1)`. -/
theorem processImageBlock_origin_alpha (cv : Canvas) (s : ℚ) (px py : ℕ)
    (hx : px + 1 < cv.W) (hy : py + 1 < cv.H) :
    (processImageBlock cv 0 0 cv.W cv.H s).pix ((py * cv.W + px) * 4 + 3)
      = jsRound (cv.pix (((py + 1) * cv.W + (px + 1)) * 4 + 3)) := by
  have hpx : px < cv.W := by omega
  have hpy : py < cv.H := by omega
  have hmin1 : min cv.W (cv.W + 2) = cv.W := by omega
  have hmin2 : min cv.H (cv.H + 2) = cv.H := by omega
  have hidx : (py * cv.W + px) * 4 + 3 < cv.W * cv.H * 4 :=
    flat_lt (pixel_lt hpx hpy) (by omega)
  simp only [processImageBlock, Nat.zero_sub, Nat.sub_zero, hmin1, hmin2]
  rw [putImageData_full, if_pos hidx]
  rw [Buf.read_in _ (by rw [centerCopy_len]; exact hidx)]
  rw [centerCopy_at _ _ _ _ _ _ _ _ hpx hpy (by omega), if_neg (by omega)]
  have hsh : ((py + 1) * cv.W + (px + 1)) * 4 + 3 < cv.W * cv.H * 4 :=
    flat_lt (pixel_lt (by omega) (by omega)) (by omega)
  rw [Buf.read_in _ (by rw [getImageData_len]; exact hsh)]
  rw [getImageData_full, if_pos hsh]
  simp only [storeByte]
  rw [jsRound_natCast _ (jsRound_le255 _)]

end ImageEnhancerCore

namespace ImageEnhancerCore

theorem contrastWrite_len (bw bh : ℕ) (k : ℚ) (d : Buf) :
    (contrastWrite bw bh k d).len = bw * bh * 4 := rfl

/-- Reading one byte of an extracted rectangle that lies inside the
canvas. -/
theorem getImageData_at (cv : Canvas) (sx sy bw bh k j ch : ℕ)
    (hk : k < bw) (hj : j < bh) (hch : ch < 4) (hx : sx + k < cv.W) (hy : sy + j < cv.H) :
    (getImageData cv sx sy bw bh).byte ((j * bw + k) * 4 + ch)
      = cv.pix (((sy + j) * cv.W + (sx + k)) * 4 + ch) := by
  simp only [getImageData]
  have hdiv : ((j * bw + k) * 4 + ch) / 4 = j * bw + k := by omega
  have hmod : ((j * bw + k) * 4 + ch) % 4 = ch := by omega
  rw [hdiv, hmod, rowcol_mod _ _ _ hk, rowcol_div _ _ _ hk]
  rw [if_pos ⟨flat_lt (pixel_lt hk hj) hch, hx, hy⟩]

theorem enhanceBlockContrast_W (cv : Canvas) (sx sy bw bh : ℕ) (f : ℚ) :
    (enhanceBlockContrast cv sx sy bw bh f).W = cv.W := rfl

theorem enhanceBlockContrast_H (cv : Canvas) (sx sy bw bh : ℕ) (f : ℚ) :
    (enhanceBlockContrast cv sx sy bw bh f).H = cv.H := rfl

/-- The per-byte effect of one contrast block: a pixel inside the block
rectangle gets the clamped contrast-stretch of its own byte on the
colour channels and a clamped copy on alpha; every other byte is
unchanged. -/
theorem enhanceBlockContrast_pix (cv : Canvas) (sx sy bw bh : ℕ) (f : ℚ) (i : ℕ) :
    (enhanceBlockContrast cv sx sy bw bh f).pix i
      = if i < cv.W * cv.H * 4 ∧ sx ≤ (i / 4) % cv.W ∧ (i / 4) % cv.W < sx + bw
            ∧ sy ≤ (i / 4) / cv.W ∧ (i / 4) / cv.W < sy + bh then
          (if i % 4 < 3 then
            jsRound ((((cv.pix i : ℚ) / 255 - 1/2) * ((f+1)*(f+1) / (f*(f+1)+1)) + 1/2) * 255)
          else jsRound (cv.pix i))
        else cv.pix i := by
  simp only [enhanceBlockContrast, putImageData]
  by_cases hcond : i < cv.W * cv.H * 4 ∧ sx ≤ (i / 4) % cv.W ∧ (i / 4) % cv.W < sx + bw
      ∧ sy ≤ (i / 4) / cv.W ∧ (i / 4) / cv.W < sy + bh
  · obtain ⟨hi, hx1, hx2, hy1, hy2⟩ := hcond
    rw [if_pos ⟨hi, hx1, hx2, hy1, hy2⟩,
        if_pos ⟨hi, hx1, hx2, hy1, hy2⟩]
    have hW : cv.W ≠ 0 := by rintro h0; rw [h0] at hi; simp at hi
    have hH : cv.H ≠ 0 := by rintro h0; rw [h0] at hi; simp at hi
    have hpx : (i / 4) % cv.W < cv.W := Nat.mod_lt _ (by omega)
    have hpy : (i / 4) / cv.W < cv.H := by
      rw [Nat.div_lt_iff_lt_mul (by omega : 0 < cv.W)]
      have hp : i / 4 < cv.W * cv.H := by omega
      calc i / 4 < cv.W * cv.H := hp
        _ = cv.H * cv.W := Nat.mul_comm _ _
    have hr : (((i / 4) / cv.W - sy) * bw + ((i / 4) % cv.W - sx)) * 4 + i % 4
        < bw * bh * 4 :=
      flat_lt (pixel_lt (by omega) (by omega)) (by omega)
    rw [Buf.read_in _ (by rw [contrastWrite_len]; exact hr)]
    simp only [contrastWrite]
    have hmod : ((((i / 4) / cv.W - sy) * bw + ((i / 4) % cv.W - sx)) * 4 + i % 4) % 4
        = i % 4 := by omega
    have hread : (getImageData cv sx sy bw bh).byte
        ((((i / 4) / cv.W - sy) * bw + ((i / 4) % cv.W - sx)) * 4 + i % 4) = cv.pix i := by
      rw [getImageData_at cv sx sy bw bh _ _ _ (by omega) (by omega) (by omega)
          (by omega) (by omega)]
      congr 1
      have e1 : sy + ((i / 4) / cv.W - sy) = (i / 4) / cv.W := by omega
      have e2 : sx + ((i / 4) % cv.W - sx) = (i / 4) % cv.W := by omega
      rw [e1, e2, p_decomp]
      omega
    by_cases hch : i % 4 < 3
    · rw [if_pos hch, if_pos ⟨hr, by omega⟩, hread]
      simp only [storeByte]
      rw [jsRound_natCast _ (jsRound_le255 _)]
    · rw [if_neg hch, if_neg (by omega : ¬(_ ∧ _)), hread]
      simp only [storeByte]
  · rw [if_neg hcond, if_neg hcond]

end ImageEnhancerCore

namespace ImageEnhancerCore

theorem blockStarts_cover {total bs : ℕ} (hbs : 0 < bs) {x : ℕ} (hx : x < total) :
    (x / bs) * bs ∈ blockStarts total bs := by
  unfold blockStarts
  refine List.mem_map.mpr ⟨x / bs, ?_, rfl⟩
  rw [List.mem_range]
  have h2 : total + bs - 1 = (total - 1) + bs := by omega
  rw [h2, Nat.add_div_right _ hbs]
  have h1 : x / bs ≤ (total - 1) / bs := Nat.div_le_div_right (by omega)
  omega

theorem blockStarts_mem {total bs : ℕ} {sx : ℕ} (h : sx ∈ blockStarts total bs) :
    sx % bs = 0 ∧ sx < total := by
  unfold blockStarts at h
  obtain ⟨k, hk, rfl⟩ := List.mem_map.mp h
  rw [List.mem_range] at hk
  rcases Nat.eq_zero_or_pos bs with hbs | hbs
  · subst hbs
    simp at hk
  rcases Nat.eq_zero_or_pos total with ht | ht
  · subst ht
    rw [Nat.zero_add] at hk
    have hlt : bs - 1 < bs := by omega
    rw [Nat.div_eq_of_lt hlt] at hk
    omega
  constructor
  · simp [Nat.mul_mod_left]
  · have h2 : total + bs - 1 = (total - 1) + bs := by omega
    rw [h2, Nat.add_div_right _ hbs] at hk
    have hk2 : k ≤ (total - 1) / bs := by omega
    have hk3 := Nat.mul_le_mul_right bs hk2
    have hfloor : (total - 1) / bs * bs ≤ total - 1 := Nat.div_mul_le_self _ _
    omega

theorem blockStarts_nodup (total bs : ℕ) (hbs : 0 < bs) : (blockStarts total bs).Nodup := by
  unfold blockStarts
  refine List.Nodup.map ?_ (List.nodup_range _)
  intro a b hab
  exact Nat.eq_of_mul_eq_mul_right hbs hab

/-- The inner (column) fold of the contrast pass, over any duplicate-free
list of block starts that are multiples of 1024 below the width: the
byte `i` is transformed exactly when its column block start is in the
list and its row lies in the `sy` band. -/
theorem contrast_fold_cols (f : ℚ) (sy : ℕ) (W0 H0 : ℕ) (i : ℕ) (ks : List ℕ)
    (c : Canvas) (hW : c.W = W0) (hH : c.H = H0)
    (hks : ∀ sx ∈ ks, sx % 1024 = 0 ∧ sx < W0)
    (hnd : ks.Nodup)
    (hi : i < W0 * H0 * 4) :
    (ks.foldl (fun c2 sx =>
        enhanceBlockContrast c2 sx sy (min 1024 (W0 - sx)) (min 1024 (H0 - sy)) f) c).pix i
      = if ((i / 4) % W0 / 1024) * 1024 ∈ ks ∧ sy ≤ (i / 4) / W0
            ∧ (i / 4) / W0 < sy + min 1024 (H0 - sy) then
          (if i % 4 < 3 then
            jsRound ((((c.pix i : ℚ) / 255 - 1/2) * ((f+1)*(f+1) / (f*(f+1)+1)) + 1/2) * 255)
          else jsRound (c.pix i))
        else c.pix i := by
  induction ks generalizing c with
  | nil => simp
  | cons sx rest ih =>
    obtain ⟨hmod, hlt⟩ := hks sx (List.mem_cons_self _ _)
    obtain ⟨hnin, hnd2⟩ := List.nodup_cons.mp hnd
    have hW0 : W0 ≠ 0 := by omega
    have hpx : (i / 4) % W0 < W0 := Nat.mod_lt _ (by omega)
    have hstep : (enhanceBlockContrast c sx sy (min 1024 (W0 - sx)) (min 1024 (H0 - sy)) f).pix i
        = if sx = ((i / 4) % W0 / 1024) * 1024 ∧ sy ≤ (i / 4) / W0
              ∧ (i / 4) / W0 < sy + min 1024 (H0 - sy) then
            (if i % 4 < 3 then
              jsRound ((((c.pix i : ℚ) / 255 - 1/2) * ((f+1)*(f+1) / (f*(f+1)+1)) + 1/2) * 255)
            else jsRound (c.pix i))
          else c.pix i := by
      rw [enhanceBlockContrast_pix, hW, hH]
      by_cases h : sx = ((i / 4) % W0 / 1024) * 1024 ∧ sy ≤ (i / 4) / W0
          ∧ (i / 4) / W0 < sy + min 1024 (H0 - sy)
      · rw [if_pos (by omega), if_pos h]
      · rw [if_neg (by omega), if_neg h]
    rw [List.foldl_cons,
        ih (enhanceBlockContrast c sx sy (min 1024 (W0 - sx)) (min 1024 (H0 - sy)) f)
          (by rw [enhanceBlockContrast_W, hW]) (by rw [enhanceBlockContrast_H, hH])
          (fun sx2 h2 => hks sx2 (List.mem_cons_of_mem _ h2)) hnd2]
    by_cases hrow : sy ≤ (i / 4) / W0 ∧ (i / 4) / W0 < sy + min 1024 (H0 - sy)
    · by_cases hcol : sx = ((i / 4) % W0 / 1024) * 1024
      · have hm : ((i / 4) % W0 / 1024) * 1024 ∉ rest := by rw [← hcol]; exact hnin
        have hno : ¬(((i / 4) % W0 / 1024) * 1024 ∈ rest ∧ sy ≤ (i / 4) / W0
            ∧ (i / 4) / W0 < sy + min 1024 (H0 - sy)) := fun hcon => hm hcon.1
        have hyes : ((i / 4) % W0 / 1024) * 1024 ∈ sx :: rest ∧ sy ≤ (i / 4) / W0
            ∧ (i / 4) / W0 < sy + min 1024 (H0 - sy) := by
          refine ⟨?_, hrow.1, hrow.2⟩
          rw [← hcol]
          exact List.mem_cons_self _ _
        rw [if_neg hno, hstep,
            if_pos (⟨hcol, hrow.1, hrow.2⟩ : sx = ((i / 4) % W0 / 1024) * 1024
              ∧ sy ≤ (i / 4) / W0 ∧ (i / 4) / W0 < sy + min 1024 (H0 - sy)),
            if_pos hyes]
      · have hstep2 : (enhanceBlockContrast c sx sy (min 1024 (W0 - sx))
            (min 1024 (H0 - sy)) f).pix i = c.pix i := by
          rw [hstep, if_neg (fun hcon => hcol hcon.1)]
        rw [hstep2]
        by_cases hm : ((i / 4) % W0 / 1024) * 1024 ∈ rest
        · have h1 : ((i / 4) % W0 / 1024) * 1024 ∈ rest ∧ sy ≤ (i / 4) / W0
              ∧ (i / 4) / W0 < sy + min 1024 (H0 - sy) := ⟨hm, hrow.1, hrow.2⟩
          have h2 : ((i / 4) % W0 / 1024) * 1024 ∈ sx :: rest ∧ sy ≤ (i / 4) / W0
              ∧ (i / 4) / W0 < sy + min 1024 (H0 - sy) :=
            ⟨List.mem_cons_of_mem _ hm, hrow.1, hrow.2⟩
          rw [if_pos h1, if_pos h2]
        · have h1 : ¬(((i / 4) % W0 / 1024) * 1024 ∈ rest ∧ sy ≤ (i / 4) / W0
              ∧ (i / 4) / W0 < sy + min 1024 (H0 - sy)) := fun hcon => hm hcon.1
          have h2 : ¬(((i / 4) % W0 / 1024) * 1024 ∈ sx :: rest ∧ sy ≤ (i / 4) / W0
              ∧ (i / 4) / W0 < sy + min 1024 (H0 - sy)) := by
            rintro ⟨hmem, -⟩
            rcases List.mem_cons.mp hmem with heq | hmem2
            · exact hcol heq.symm
            · exact hm hmem2
          rw [if_neg h1, if_neg h2]
    · have hstep2 : (enhanceBlockContrast c sx sy (min 1024 (W0 - sx))
          (min 1024 (H0 - sy)) f).pix i = c.pix i := by
        rw [hstep, if_neg (fun hcon => hrow ⟨hcon.2.1, hcon.2.2⟩)]
      rw [hstep2,
          if_neg (fun hcon => hrow ⟨hcon.2.1, hcon.2.2⟩),
          if_neg (fun hcon => hrow ⟨hcon.2.1, hcon.2.2⟩)]

end ImageEnhancerCore

namespace ImageEnhancerCore

theorem contrast_foldl_W (f : ℚ) (sy W0 H0 : ℕ) (ks : List ℕ) (c : Canvas) :
    (ks.foldl (fun c2 sx =>
      enhanceBlockContrast c2 sx sy (min 1024 (W0 - sx)) (min 1024 (H0 - sy)) f) c).W = c.W := by
  induction ks generalizing c with
  | nil => rfl
  | cons a t ih =>
    rw [List.foldl_cons, ih]
    rfl

theorem contrast_foldl_H (f : ℚ) (sy W0 H0 : ℕ) (ks : List ℕ) (c : Canvas) :
    (ks.foldl (fun c2 sx =>
      enhanceBlockContrast c2 sx sy (min 1024 (W0 - sx)) (min 1024 (H0 - sy)) f) c).H = c.H := by
  induction ks generalizing c with
  | nil => rfl
  | cons a t ih =>
    rw [List.foldl_cons, ih]
    rfl

/-- The outer (row) fold of the contrast pass over duplicate-free row
starts: the byte `i` is transformed exactly when its row block start is
in the list. -/
theorem contrast_fold_rows (f : ℚ) (W0 H0 i : ℕ) (ls : List ℕ) (c : Canvas)
    (hW : c.W = W0) (hH : c.H = H0)
    (hls : ∀ sy ∈ ls, sy % 1024 = 0 ∧ sy < H0)
    (hnd : ls.Nodup)
    (hi : i < W0 * H0 * 4) :
    (ls.foldl (fun cc sy => (blockStarts W0 1024).foldl
        (fun c2 sx =>
          enhanceBlockContrast c2 sx sy (min 1024 (W0 - sx)) (min 1024 (H0 - sy)) f) cc) c).pix i
      = if ((i / 4) / W0 / 1024) * 1024 ∈ ls then
          (if i % 4 < 3 then
            jsRound ((((c.pix i : ℚ) / 255 - 1/2) * ((f+1)*(f+1) / (f*(f+1)+1)) + 1/2) * 255)
          else jsRound (c.pix i))
        else c.pix i := by
  induction ls generalizing c with
  | nil => simp
  | cons sy rest ih =>
    obtain ⟨hmod, hlt⟩ := hls sy (List.mem_cons_self _ _)
    obtain ⟨hnin, hnd2⟩ := List.nodup_cons.mp hnd
    have hW0 : W0 ≠ 0 := by
      rintro h0
      rw [h0] at hi
      simp at hi
    have hpx : (i / 4) % W0 < W0 := Nat.mod_lt _ (by omega)
    have hpy : (i / 4) / W0 < H0 := by
      rw [Nat.div_lt_iff_lt_mul (by omega : 0 < W0)]
      have hp : i / 4 < W0 * H0 := by omega
      calc i / 4 < W0 * H0 := hp
        _ = H0 * W0 := Nat.mul_comm _ _
    have hmem : ((i / 4) % W0 / 1024) * 1024 ∈ blockStarts W0 1024 :=
      blockStarts_cover (by norm_num) hpx
    have hstep : ((blockStarts W0 1024).foldl
        (fun c2 sx =>
          enhanceBlockContrast c2 sx sy (min 1024 (W0 - sx)) (min 1024 (H0 - sy)) f) c).pix i
        = if sy = ((i / 4) / W0 / 1024) * 1024 then
            (if i % 4 < 3 then
              jsRound ((((c.pix i : ℚ) / 255 - 1/2) * ((f+1)*(f+1) / (f*(f+1)+1)) + 1/2) * 255)
            else jsRound (c.pix i))
          else c.pix i := by
      rw [contrast_fold_cols f sy W0 H0 i (blockStarts W0 1024) c hW hH
          (fun sx h => blockStarts_mem h) (blockStarts_nodup _ _ (by norm_num)) hi]
      by_cases h : sy = ((i / 4) / W0 / 1024) * 1024
      · rw [if_pos ⟨hmem, by omega, by omega⟩, if_pos h]
      · rw [if_neg (fun hcon => h (by omega)), if_neg h]
    rw [List.foldl_cons,
        ih ((blockStarts W0 1024).foldl
          (fun c2 sx =>
            enhanceBlockContrast c2 sx sy (min 1024 (W0 - sx)) (min 1024 (H0 - sy)) f) c)
          (by rw [contrast_foldl_W, hW]) (by rw [contrast_foldl_H, hH])
          (fun sy2 h2 => hls sy2 (List.mem_cons_of_mem _ h2)) hnd2]
    by_cases hcol : sy = ((i / 4) / W0 / 1024) * 1024
    · have hm : ((i / 4) / W0 / 1024) * 1024 ∉ rest := by rw [← hcol]; exact hnin
      rw [if_neg (show ¬(((i / 4) / W0 / 1024) * 1024 ∈ rest) from hm), hstep, if_pos hcol,
          if_pos (show ((i / 4) / W0 / 1024) * 1024 ∈ sy :: rest by
            rw [← hcol]; exact List.mem_cons_self _ _)]
    · have hstep2 : ((blockStarts W0 1024).foldl
          (fun c2 sx =>
            enhanceBlockContrast c2 sx sy (min 1024 (W0 - sx)) (min 1024 (H0 - sy)) f) c).pix i
          = c.pix i := by rw [hstep, if_neg hcol]
      rw [hstep2]
      by_cases hm : ((i / 4) / W0 / 1024) * 1024 ∈ rest
      · rw [if_pos hm, if_pos (List.mem_cons_of_mem _ hm)]
      · rw [if_neg hm, if_neg (show ¬(((i / 4) / W0 / 1024) * 1024 ∈ sy :: rest) by
          rintro hmem
          rcases List.mem_cons.mp hmem with heq | hmem2
          · exact hcol heq.symm
          · exact hm hmem2)]

/-- The whole tiled contrast pass acts pointwise: every in-range colour
byte receives the clamped contrast stretch of its own value, and every
in-range alpha byte is stored back through the clamping store. -/
theorem applyContrastEnhancement_pix (cv : Canvas) (f : ℚ) (i : ℕ)
    (hi : i < cv.W * cv.H * 4) :
    (applyContrastEnhancement cv f).pix i
      = if i % 4 < 3 then
          jsRound ((((cv.pix i : ℚ) / 255 - 1/2) * ((f+1)*(f+1) / (f*(f+1)+1)) + 1/2) * 255)
        else jsRound (cv.pix i) := by
  have hW0 : cv.W ≠ 0 := by
    rintro h0
    rw [h0] at hi
    simp at hi
  have hpy : (i / 4) / cv.W < cv.H := by
    rw [Nat.div_lt_iff_lt_mul (by omega : 0 < cv.W)]
    have hp : i / 4 < cv.W * cv.H := by omega
    calc i / 4 < cv.W * cv.H := hp
      _ = cv.H * cv.W := Nat.mul_comm _ _
  unfold applyContrastEnhancement
  rw [contrast_fold_rows f cv.W cv.H i (blockStarts cv.H 1024) cv rfl rfl
      (fun sy h => blockStarts_mem h) (blockStarts_nodup _ _ (by norm_num)) hi]
  rw [if_pos (blockStarts_cover (by norm_num) hpy)]

end ImageEnhancerCore

theorem jsRound_of_ge (q : ℚ) (h : 255 ≤ q) : jsRound q = 255 := by
  simp only [jsRound]
  have hmin : min 255 q = 255 := min_eq_left h
  have hmax : max (0:ℚ) 255 = 255 := max_eq_right (by norm_num)
  rw [hmin, hmax]
  have hfl : ⌊(255:ℚ)⌋ = 255 := by norm_num
  rw [hfl]
  norm_num
  rfl

namespace ImageEnhancerCore

theorem applyHighQualitySharpening_W (cv : Canvas) (s : ℚ) :
    (applyHighQualitySharpening cv s).W = cv.W := rfl

theorem applyHighQualitySharpening_H (cv : Canvas) (s : ℚ) :
    (applyHighQualitySharpening cv s).H = cv.H := rfl

/-- The single-pass sharpening stores the alpha byte back unchanged
(modulo the clamping store). -/
theorem applyHighQualitySharpening_alpha (cv : Canvas) (s : ℚ) (i : ℕ)
    (hi : i < cv.W * cv.H * 4) (ha : i % 4 = 3) :
    (applyHighQualitySharpening cv s).pix i = jsRound (cv.pix i) := by
  unfold applyHighQualitySharpening
  rw [putImageData_full, if_pos hi]
  rw [Buf.read_in _ (by rw [sharpenWrite_len, getImageData_len]; exact hi)]
  simp only [sharpenWrite]
  rw [if_neg (by omega)]
  rw [getImageData_full, if_pos hi]
  simp only [storeByte]

/-- On a canvas no larger than one 512-tile, the tiled path consists of
a single block at the origin covering the whole canvas. -/
theorem applyOptimizedSharpening_small (cv : Canvas) (s : ℚ)
    (hW : 0 < cv.W) (hW2 : cv.W ≤ 512) (hH : 0 < cv.H) (hH2 : cv.H ≤ 512) :
    applyOptimizedSharpening cv s = processImageBlock cv 0 0 cv.W cv.H s := by
  unfold applyOptimizedSharpening blockStarts
  have h1 : (cv.H + 512 - 1) / 512 = 1 := by omega
  have h2 : (cv.W + 512 - 1) / 512 = 1 := by omega
  rw [h1, h2, show List.range 1 = [0] from rfl]
  simp only [List.map_cons, List.map_nil, List.foldl_cons, List.foldl_nil,
    Nat.zero_mul, Nat.sub_zero]
  rw [show min 512 cv.W = cv.W from by omega, show min 512 cv.H = cv.H from by omega]

end ImageEnhancerCore

namespace ImageEnhancerCore

/-- When the monitor never reports a critical condition, the chunked
loop returns all items, each processed by `step`, in order. -/
theorem batchLoop_no_pause (step : BFile → BFile) (pauseAt : ℕ → Option String) (bs : ℕ)
    (hbs : 0 < bs) (hnp : ∀ k, pauseAt k = none) :
    ∀ (n : ℕ) (remaining acc : List BFile) (k : ℕ), remaining.length ≤ n →
      batchLoop step pauseAt bs k remaining acc = .ok (acc ++ remaining.map step) := by
  intro n
  induction n with
  | zero =>
    intro remaining acc k h
    have hnil : remaining = [] := List.eq_nil_of_length_eq_zero (by omega)
    subst hnil
    rw [batchLoop]
    simp
  | succ n ih =>
    intro remaining acc k h
    cases remaining with
    | nil =>
      rw [batchLoop]
      simp
    | cons fh ft =>
      rw [batchLoop]
      rw [dif_neg (by simp), dif_neg (by omega), hnp k]
      dsimp only
      simp only [List.length_cons] at h
      have hlen : ((fh :: ft).drop bs).length ≤ n := by
        rw [List.length_drop]
        simp only [List.length_cons]
        omega
      rw [ih ((fh :: ft).drop bs) _ (k + 1) hlen]
      rw [List.append_assoc, ← List.map_append, List.take_append_drop]

end ImageEnhancerCore

/-- C2: with enhancement level 0, `enhanceImageSafely` returns the input
data URL itself and `enhanceImagesBatch` returns the input list itself —
no re-encode, no copy, regardless of the environment, the monitor and
the batch size. -/
theorem C2_level_zero_identity (eo : String → Except String String)
    (pauseAt : ℕ → Option String) (bs : ℕ)
    (files : List ImageEnhancerCore.BFile) (img : String) :
    ImageEnhancerCore.enhanceImageSafely eo 0 img = .ok img
    ∧ ImageEnhancerCore.enhanceImagesBatch eo 0 pauseAt bs files = .ok files :=
  ⟨by simp [ImageEnhancerCore.enhanceImageSafely],
   by simp [ImageEnhancerCore.enhanceImagesBatch]⟩

/-- C6: per-item failures are absorbed: with a positive batch size and
no batch-level abort, both batch operations return a list of the same
length and order as the input, each element being either the original
item or the item rebuilt from a successful enhancement of its payload. -/
theorem C6_per_item_failures_absorbed
    (eo em : String → Except String String) (level : ℕ) (pauseAt : ℕ → Option String)
    (bs : ℕ) (files : List ImageEnhancerCore.BFile)
    (hbs : 0 < bs) (hnp : ∀ k, pauseAt k = none) :
    (∃ out, ImageEnhancerCore.enhanceImagesBatch eo level pauseAt bs files = .ok out
      ∧ out.length = files.length
      ∧ ∀ i (hi : i < files.length) (hi2 : i < out.length),
          out.get ⟨i, hi2⟩ = files.get ⟨i, hi⟩
          ∨ ∃ d, ImageEnhancerCore.enhanceImageSafely eo level (files.get ⟨i, hi⟩).imageData = .ok d
              ∧ out.get ⟨i, hi2⟩ = { files.get ⟨i, hi⟩ with
                    imageData := d, enhanced := true, enhancementLevel := level })
    ∧ ((ImageEnhancerMobile.processBatchMobile em level files).length = files.length
      ∧ ∀ i (hi : i < files.length)
          (hi2 : i < (ImageEnhancerMobile.processBatchMobile em level files).length),
          (ImageEnhancerMobile.processBatchMobile em level files).get ⟨i, hi2⟩ = files.get ⟨i, hi⟩
          ∨ ∃ d, ImageEnhancerMobile.enhanceImageMobile em level (files.get ⟨i, hi⟩).imageData = .ok d
              ∧ (ImageEnhancerMobile.processBatchMobile em level files).get ⟨i, hi2⟩
                = { files.get ⟨i, hi⟩ with
                      imageData := d, enhanced := true, enhancementLevel := level }) := by
  constructor
  · by_cases hlevel : level = 0
    · subst hlevel
      refine ⟨files, by simp [ImageEnhancerCore.enhanceImagesBatch], rfl, ?_⟩
      intro i hi hi2
      left
      rfl
    · refine ⟨files.map (ImageEnhancerCore.tryEnhance eo level), ?_, by simp, ?_⟩
      · unfold ImageEnhancerCore.enhanceImagesBatch
        rw [if_neg hlevel]
        rw [ImageEnhancerCore.batchLoop_no_pause _ _ _ hbs hnp files.length files [] 0 le_rfl]
        simp
      · intro i hi hi2
        have hget : (files.map (ImageEnhancerCore.tryEnhance eo level)).get ⟨i, hi2⟩
            = ImageEnhancerCore.tryEnhance eo level (files.get ⟨i, by simpa using hi⟩) := by
          simp
        rw [hget]
        unfold ImageEnhancerCore.tryEnhance
        cases heq : ImageEnhancerCore.enhanceImageSafely eo level
            (files.get ⟨i, by simpa using hi⟩).imageData with
        | ok d => exact Or.inr ⟨d, heq ▸ rfl, rfl⟩
        | error e => exact Or.inl rfl
  · refine ⟨by simp [ImageEnhancerMobile.processBatchMobile], ?_⟩
    intro i hi hi2
    have hget : (ImageEnhancerMobile.processBatchMobile em level files).get ⟨i, hi2⟩
        = (match ImageEnhancerMobile.enhanceImageMobile em level
              (files.get ⟨i, by simpa using hi⟩).imageData with
          | .ok d => { files.get ⟨i, by simpa using hi⟩ with
                imageData := d, enhanced := true, enhancementLevel := level }
          | .error _ => files.get ⟨i, by simpa using hi⟩) := by
      simp [ImageEnhancerMobile.processBatchMobile]
    rw [hget]
    cases heq : ImageEnhancerMobile.enhanceImageMobile em level
        (files.get ⟨i, by simpa using hi⟩).imageData with
    | ok d => exact Or.inr ⟨d, heq ▸ rfl, rfl⟩
    | error e => exact Or.inl rfl

/-- Witness for C6 at a concrete input. -/
theorem C6_per_item_failures_absorbed_witness :
    (0 < 1 ∧ (∀ k, pauseNever k = none))
    ∧ (∃ out, ImageEnhancerCore.enhanceImagesBatch okEnhance 1 pauseNever 1 [fileA] = .ok out
      ∧ out.length = [fileA].length
      ∧ ∀ i (hi : i < [fileA].length) (hi2 : i < out.length),
          out.get ⟨i, hi2⟩ = [fileA].get ⟨i, hi⟩
          ∨ ∃ d, ImageEnhancerCore.enhanceImageSafely okEnhance 1
                ([fileA].get ⟨i, hi⟩).imageData = .ok d
              ∧ out.get ⟨i, hi2⟩ = { [fileA].get ⟨i, hi⟩ with
                    imageData := d, enhanced := true, enhancementLevel := 1 })
    ∧ ((ImageEnhancerMobile.processBatchMobile okEnhance 1 [fileA]).length = [fileA].length
      ∧ ∀ i (hi : i < [fileA].length)
          (hi2 : i < (ImageEnhancerMobile.processBatchMobile okEnhance 1 [fileA]).length),
          (ImageEnhancerMobile.processBatchMobile okEnhance 1 [fileA]).get ⟨i, hi2⟩
            = [fileA].get ⟨i, hi⟩
          ∨ ∃ d, ImageEnhancerMobile.enhanceImageMobile okEnhance 1
                ([fileA].get ⟨i, hi⟩).imageData = .ok d
              ∧ (ImageEnhancerMobile.processBatchMobile okEnhance 1 [fileA]).get ⟨i, hi2⟩
                = { [fileA].get ⟨i, hi⟩ with
                      imageData := d, enhanced := true, enhancementLevel := 1 }) :=
  ⟨⟨Nat.one_pos, fun _ => rfl⟩,
   C6_per_item_failures_absorbed okEnhance okEnhance 1 pauseNever 1 [fileA]
     Nat.one_pos (fun _ => rfl)⟩

/-- The concrete critical monitor state reports the memory reason. -/
theorem criticalState_pauses :
    PerformanceMonitor.shouldPauseProcessing criticalState = some "memory_critical" := by
  unfold PerformanceMonitor.shouldPauseProcessing criticalState PerformanceMonitor.exceeds
  norm_num

/-- C5 counterexample: a two-item batch whose monitor reports a critical
memory condition at the first chunk boundary throws, and no item list —
in particular not the already-enhanced first chunk — is returned. -/
theorem C5_abort_discards_results_cex :
    ImageEnhancerCore.enhanceImagesBatch okEnhance 1
        (fun _ => PerformanceMonitor.shouldPauseProcessing criticalState) 1 [fileA, fileB]
      = .error ("处理暂停: " ++ "memory_critical")
    ∧ ∀ out : List ImageEnhancerCore.BFile,
        ImageEnhancerCore.enhanceImagesBatch okEnhance 1
          (fun _ => PerformanceMonitor.shouldPauseProcessing criticalState) 1 [fileA, fileB]
          ≠ .ok out := by
  have h1 : ImageEnhancerCore.enhanceImagesBatch okEnhance 1
      (fun _ => PerformanceMonitor.shouldPauseProcessing criticalState) 1 [fileA, fileB]
      = .error ("处理暂停: " ++ "memory_critical") := by
    unfold ImageEnhancerCore.enhanceImagesBatch
    rw [if_neg (by omega)]
    rw [ImageEnhancerCore.batchLoop]
    rw [dif_neg (by simp), dif_neg (by omega)]
    dsimp only
    rw [criticalState_pauses]
  refine ⟨h1, fun out hcon => ?_⟩
  rw [h1] at hcon
  simp at hcon

/-- C5 (amended): a critical condition at the first chunk boundary makes
the batch throw `处理暂停: <reason>`, discarding every result; and absent
critical conditions the batch never throws, whatever the per-item
outcomes — so the abort is distinguishable from per-item failures. -/
theorem C5_abort_throws_and_discards
    (eo : String → Except String String) (level : ℕ) (bs : ℕ)
    (files : List ImageEnhancerCore.BFile)
    (states : ℕ → PerformanceMonitor.MonitorState) (reason : String)
    (hlevel : level ≠ 0) (hbs : 0 < bs) (hne : files ≠ [])
    (hcrit : PerformanceMonitor.shouldPauseProcessing (states 0) = some reason) :
    ImageEnhancerCore.enhanceImagesBatch eo level
        (fun k => PerformanceMonitor.shouldPauseProcessing (states k)) bs files
      = .error ("处理暂停: " ++ reason)
    ∧ (∀ out, ImageEnhancerCore.enhanceImagesBatch eo level
        (fun k => PerformanceMonitor.shouldPauseProcessing (states k)) bs files ≠ .ok out)
    ∧ (∀ pauseAt2 : ℕ → Option String, (∀ k, pauseAt2 k = none) →
        ∃ out, ImageEnhancerCore.enhanceImagesBatch eo level pauseAt2 bs files = .ok out) := by
  have h1 : ImageEnhancerCore.enhanceImagesBatch eo level
      (fun k => PerformanceMonitor.shouldPauseProcessing (states k)) bs files
      = .error ("处理暂停: " ++ reason) := by
    unfold ImageEnhancerCore.enhanceImagesBatch
    rw [if_neg hlevel]
    rw [ImageEnhancerCore.batchLoop]
    rw [dif_neg hne, dif_neg (by omega)]
    dsimp only
    rw [hcrit]
  refine ⟨h1, fun out hcon => by rw [h1] at hcon; simp at hcon, ?_⟩
  intro pauseAt2 hnp
  refine ⟨files.map (ImageEnhancerCore.tryEnhance eo level), ?_⟩
  unfold ImageEnhancerCore.enhanceImagesBatch
  rw [if_neg hlevel]
  rw [ImageEnhancerCore.batchLoop_no_pause _ _ _ hbs hnp files.length files [] 0 le_rfl]
  simp

/-- Witness for C5's amended theorem at a concrete input. -/
theorem C5_abort_throws_and_discards_witness :
    ((1 : ℕ) ≠ 0 ∧ 0 < 1 ∧ ([fileA, fileB] : List ImageEnhancerCore.BFile) ≠ []
      ∧ PerformanceMonitor.shouldPauseProcessing criticalState = some "memory_critical")
    ∧ (ImageEnhancerCore.enhanceImagesBatch okEnhance 1
          (fun k => PerformanceMonitor.shouldPauseProcessing ((fun _ => criticalState) k)) 1
          [fileA, fileB]
        = .error ("处理暂停: " ++ "memory_critical")
      ∧ (∀ out, ImageEnhancerCore.enhanceImagesBatch okEnhance 1
          (fun k => PerformanceMonitor.shouldPauseProcessing ((fun _ => criticalState) k)) 1
          [fileA, fileB] ≠ .ok out)
      ∧ (∀ pauseAt2 : ℕ → Option String, (∀ k, pauseAt2 k = none) →
          ∃ out, ImageEnhancerCore.enhanceImagesBatch okEnhance 1 pauseAt2 1
            [fileA, fileB] = .ok out)) :=
  ⟨⟨by omega, by omega, by simp, criticalState_pauses⟩,
   C5_abort_throws_and_discards okEnhance 1 1 [fileA, fileB] (fun _ => criticalState)
     "memory_critical" (by omega) (by omega) (by simp) criticalState_pauses⟩

/-- C7 counterexample: the low tier's pixel budget is 1024·768 = 786432,
not the 1 MP (1,048,576) stated in the spec's policy table. -/
theorem C7_low_tier_budget_cex :
    (ImageEnhancerMobile.getOptimizationSettings .low).maxImageSize = 786432
    ∧ (786432 : ℕ) ≠ 1048576 :=
  ⟨rfl, by norm_num⟩

/-- C7 (amended): the low-tier budget is maxImageSize 1024·768 (786,432
pixels), batch size 1, inter-batch delay 500 ms, quality reduction 0.2. -/
theorem C7_low_tier_budget :
    (ImageEnhancerMobile.getOptimizationSettings .low).maxImageSize = 1024 * 768
    ∧ (ImageEnhancerMobile.getOptimizationSettings .low).maxBatchSize = 1
    ∧ (ImageEnhancerMobile.getOptimizationSettings .low).processingDelay = 500
    ∧ (ImageEnhancerMobile.getOptimizationSettings .low).qualityReduction = 1/5 :=
  ⟨rfl, rfl, rfl, rfl⟩

/-- C8: applying the battery override then the charging override to the
tier budgets: low tier at battery 0.1 discharging gives delay 1100 ms
(≥ 1000) and batch size 1; high tier at battery 0.9 charging gives
delay exactly 100 ms (the floor) and batch size 2 ∈ {2,3}; charging
subtracts 100 ms with a 100 ms floor, discharging adds 100 ms. -/
theorem C8_battery_charging_overrides :
    (ImageEnhancerMobile.adjustForChargingState false
        (ImageEnhancerMobile.adjustForBatteryLevel .low (1/10)
          (ImageEnhancerMobile.getOptimizationSettings .low))).processingDelay = 1100
    ∧ 1000 ≤ 1100
    ∧ (ImageEnhancerMobile.adjustForChargingState false
        (ImageEnhancerMobile.adjustForBatteryLevel .low (1/10)
          (ImageEnhancerMobile.getOptimizationSettings .low))).maxBatchSize = 1
    ∧ (ImageEnhancerMobile.adjustForChargingState true
        (ImageEnhancerMobile.adjustForBatteryLevel .high (9/10)
          (ImageEnhancerMobile.getOptimizationSettings .high))).processingDelay = 100
    ∧ ((ImageEnhancerMobile.adjustForChargingState true
        (ImageEnhancerMobile.adjustForBatteryLevel .high (9/10)
          (ImageEnhancerMobile.getOptimizationSettings .high))).maxBatchSize = 2
      ∨ (ImageEnhancerMobile.adjustForChargingState true
        (ImageEnhancerMobile.adjustForBatteryLevel .high (9/10)
          (ImageEnhancerMobile.getOptimizationSettings .high))).maxBatchSize = 3)
    ∧ (∀ s : ImageEnhancerMobile.OptSettings,
        (ImageEnhancerMobile.adjustForChargingState true s).processingDelay
          = max 100 (s.processingDelay - 100))
    ∧ (∀ s : ImageEnhancerMobile.OptSettings,
        (ImageEnhancerMobile.adjustForChargingState false s).processingDelay
          = s.processingDelay + 100) := by
  refine ⟨?_, by norm_num, ?_, ?_, Or.inl ?_, fun s => rfl, fun s => rfl⟩ <;>
    norm_num [ImageEnhancerMobile.adjustForChargingState,
      ImageEnhancerMobile.adjustForBatteryLevel, ImageEnhancerMobile.getOptimizationSettings]

/-- Each of the four number patterns extracts integers from only 2 of
the 3 example filenames ("cover" has no digits), and 2 is below the 70 %
threshold `3 · 0.7 = 2.1`, so every pattern is rejected. -/
theorem files9_numbering_none : OrderDetector.analyzeNumbering files9 = none := by
  have hthr : ∀ pat : List Char → Option (List Char),
      (files9.filterMap fun f =>
        (pat (OrderDetector.stripExt f.name).data).map fun ds =>
          (f, OrderDetector.parseIntDigits ds)).length = 2 →
      OrderDetector.extractNumbers files9 pat = none := by
    intro pat hlen
    unfold OrderDetector.extractNumbers
    dsimp only
    rw [hlen]
    rw [if_pos (by norm_num [files9])]
  have h1 : OrderDetector.extractNumbers files9 OrderDetector.pStart = none :=
    hthr _ (by decide)
  have h2 : OrderDetector.extractNumbers files9 OrderDetector.pAny = none :=
    hthr _ (by decide)
  have h3 : OrderDetector.extractNumbers files9 OrderDetector.pEnd = none :=
    hthr _ (by decide)
  have h4 : OrderDetector.extractNumbers files9 OrderDetector.pContain = none :=
    hthr _ (by decide)
  unfold OrderDetector.analyzeNumbering
  rw [h1, h2, h3, h4]

/-- The full filename analysis of the example: the cover is found, but
no valid numeric order. -/
theorem files9_analysis :
    OrderDetector.analyzeFileNames files9 = ⟨false, true, [⟨"cover.jpg", 0⟩], []⟩ := by
  unfold OrderDetector.analyzeFileNames
  rw [files9_numbering_none]
  have hcov : (files9.filter fun f => OrderDetector.isCoverFile f.name
      || OrderDetector.isCoverFile (OrderDetector.stripExt f.name)) = [⟨"cover.jpg", 0⟩] := by
    decide
  dsimp only
  rw [hcov]
  rfl

/-- C9 counterexample: on `["cover.jpg","001.jpg","002.jpg"]` the
numbering analysis rejects every pattern (2 of 3 filenames parse,
66.7 % < 70 %), so `detectOrder` applies no order at all. -/
theorem C9_detection_fails_cex :
    OrderDetector.analyzeNumbering files9 = none
    ∧ OrderDetector.detectOrder files9 = none := by
  refine ⟨files9_numbering_none, ?_⟩
  unfold OrderDetector.detectOrder
  rw [if_neg (by decide : ¬(files9.isEmpty = true))]
  dsimp only
  rw [files9_analysis]
  rfl

/-- C9 (amended): the cover file is identified, the automatic numeric
detection fails (below the 70 % threshold with the cover in the
denominator), and only the user-confirmed alphabetical fallback yields
`["cover.jpg","001.jpg","002.jpg"]` with the cover hoisted. -/
theorem C9_cover_and_fallback_order :
    (OrderDetector.analyzeFileNames files9).coverFiles.map OrderDetector.FileN.name
      = ["cover.jpg"]
    ∧ (OrderDetector.analyzeFileNames files9).hasValidOrder = false
    ∧ OrderDetector.detectOrder files9 = none
    ∧ (OrderDetector.continueProcessing files9
        (OrderDetector.analyzeFileNames files9)).map OrderDetector.FileN.name
      = ["cover.jpg", "001.jpg", "002.jpg"] := by
  have hdet : OrderDetector.detectOrder files9 = none := by
    unfold OrderDetector.detectOrder
    rw [if_neg (by decide : ¬(files9.isEmpty = true))]
    dsimp only
    rw [files9_analysis]
    rfl
  refine ⟨by rw [files9_analysis]; rfl, by rw [files9_analysis], hdet, ?_⟩
  rw [files9_analysis]
  decide

/-- C10: the reduced strength table is `[0, 0.2, 0.4, 0.6]`, but the
JavaScript `strengths[level] || 0.2` treats the entry `0` as missing, so
level 0 runs at strength 0.2 instead of 0: on a 3×3 canvas with centre
red 100 the level-0 lightweight sharpening changes the byte to 180. -/
theorem C10_level0_strength_bug :
    ImageEnhancerMobile.lightweightStrengthTable = [0, 1/5, 2/5, 3/5]
    ∧ ImageEnhancerMobile.lightweightStrength 0 = 1/5
    ∧ (1/5 : ℚ) ≠ 0
    ∧ ImageEnhancerMobile.lightweightStrength 1 = 1/5
    ∧ ImageEnhancerMobile.lightweightStrength 2 = 2/5
    ∧ ImageEnhancerMobile.lightweightStrength 3 = 3/5
    ∧ cexCanvasC10.pix 16 = 100
    ∧ (ImageEnhancerMobile.applyLightweightSharpening cexCanvasC10 0).pix 16 = 180 := by
  have hs0 : ImageEnhancerMobile.lightweightStrength 0 = 1/5 := by
    norm_num [ImageEnhancerMobile.lightweightStrength, ImageEnhancerMobile.lightweightStrengthTable]
  refine ⟨rfl, hs0, by norm_num, ?_, ?_, ?_, by norm_num [cexCanvasC10], ?_⟩
  · norm_num [ImageEnhancerMobile.lightweightStrength, ImageEnhancerMobile.lightweightStrengthTable]
  · norm_num [ImageEnhancerMobile.lightweightStrength, ImageEnhancerMobile.lightweightStrengthTable]
  · norm_num [ImageEnhancerMobile.lightweightStrength, ImageEnhancerMobile.lightweightStrengthTable]
  · have h1 : ImageEnhancerMobile.applyLightweightSharpening cexCanvasC10 0
        = ImageEnhancerMobile.applyCPUSharpening cexCanvasC10 (1/5) := by
      unfold ImageEnhancerMobile.applyLightweightSharpening
      rw [hs0, if_neg (by norm_num)]
    rw [h1]
    have h2 := ImageEnhancerMobile.applyCPUSharpening_interior cexCanvasC10 (1/5) 1 1 0
      (by norm_num) (by norm_num [cexCanvasC10]) (by norm_num) (by norm_num [cexCanvasC10])
      (by norm_num)
    norm_num [cexCanvasC10] at h2
    simp only [cexCanvasC10]
    rw [h2]
    rw [show (180 : ℚ) = ((180 : ℕ) : ℚ) by norm_num]
    exact jsRound_natCast 180 (by norm_num)

/-- C1: on a 4×4 image (well below the 1 MP threshold) with a single
red pixel at (1,1), strength 0.3 (level 1), the single 512-tile covers
the whole canvas, yet the tiled path writes 0 where the single-pass
convolution writes 255 at the same interior byte: the tile's centre copy
is shifted one pixel up-left because the constant halo offset is applied
even though the grab was clamped at the canvas border. -/
theorem C1_tiled_path_shifted :
    ImageEnhancerCore.enhancementStrength 1 = some (3/10)
    ∧ cexCanvasC1.W * cexCanvasC1.H < 1024 * 1024
    ∧ (ImageEnhancerCore.applyHighQualitySharpening cexCanvasC1 (3/10)).pix 20 = 255
    ∧ (ImageEnhancerCore.applyOptimizedSharpening cexCanvasC1 (3/10)).pix 20 = 0
    ∧ ¬((255 : ℤ) - 0 ≤ 1) := by
  refine ⟨rfl, by norm_num [cexCanvasC1], ?_, ?_, by norm_num⟩
  · have h := ImageEnhancerCore.applyHighQualitySharpening_interior cexCanvasC1 (3/10) 1 1 0
      (by norm_num) (by norm_num [cexCanvasC1]) (by norm_num) (by norm_num [cexCanvasC1])
      (by norm_num)
    norm_num [cexCanvasC1] at h
    simp only [cexCanvasC1]
    rw [h]
    exact jsRound_of_ge _ (by norm_num)
  · rw [ImageEnhancerCore.applyOptimizedSharpening_small cexCanvasC1 (3/10)
      (by norm_num [cexCanvasC1]) (by norm_num [cexCanvasC1])
      (by norm_num [cexCanvasC1]) (by norm_num [cexCanvasC1])]
    have h := ImageEnhancerCore.processImageBlock_origin_rgb cexCanvasC1 (3/10) 1 1 0
      (by norm_num [cexCanvasC1]) (by norm_num [cexCanvasC1]) (by norm_num)
    norm_num [cexCanvasC1] at h
    simp only [cexCanvasC1]
    rw [h]
    rw [show (0 : ℚ) = ((0 : ℕ) : ℚ) by norm_num]
    exact jsRound_natCast 0 (by norm_num)

/-- C4: the full-frame sharpening and the contrast pass keep every alpha
byte (here 255 at pixel (1,1)), but the tiled path writes the alpha of
the shifted source pixel (2,2) — 7 — into pixel (1,1): alpha is not
preserved by the top-left block of the tiled path. -/
theorem C4_tiled_alpha_not_preserved :
    cexCanvasC4.pix 23 = 255
    ∧ (ImageEnhancerCore.applyHighQualitySharpening cexCanvasC4 (3/10)).pix 23 = 255
    ∧ (ImageEnhancerCore.applyContrastEnhancement cexCanvasC4 (1/5)).pix 23 = 255
    ∧ (ImageEnhancerCore.applyOptimizedSharpening cexCanvasC4 (3/10)).pix 23 = 7
    ∧ (7 : ℕ) ≠ 255 := by
  have hpix : cexCanvasC4.pix 23 = 255 := by norm_num [cexCanvasC4]
  refine ⟨hpix, ?_, ?_, ?_, by norm_num⟩
  · rw [ImageEnhancerCore.applyHighQualitySharpening_alpha cexCanvasC4 (3/10) 23
      (by norm_num [cexCanvasC4]) (by norm_num), hpix]
    exact jsRound_natCast 255 le_rfl
  · rw [ImageEnhancerCore.applyContrastEnhancement_pix cexCanvasC4 (1/5) 23
      (by norm_num [cexCanvasC4]), if_neg (by norm_num), hpix]
    exact jsRound_natCast 255 le_rfl
  · rw [ImageEnhancerCore.applyOptimizedSharpening_small cexCanvasC4 (3/10)
      (by norm_num [cexCanvasC4]) (by norm_num [cexCanvasC4])
      (by norm_num [cexCanvasC4]) (by norm_num [cexCanvasC4])]
    have h := ImageEnhancerCore.processImageBlock_origin_alpha cexCanvasC4 (3/10) 1 1
      (by norm_num [cexCanvasC4]) (by norm_num [cexCanvasC4])
    norm_num [cexCanvasC4] at h
    simp only [cexCanvasC4]
    rw [h]
    rw [show (7 : ℚ) = ((7 : ℕ) : ℚ) by norm_num]
    exact jsRound_natCast 7 (by norm_num)

/-- C3: for levels 1/2/3 the full enhancement on a sub-1 MP canvas uses
the fixed strengths 0.3/0.6/1.0, computes every interior colour byte by
the spec's 3×3 kernel (centre `1+4s`, orthogonal `−s`, corners 0,
clamped), and applies the spec's contrast stretch with factor
`(s−0.6)·0.5` afterwards exactly when `s > 0.6` (that is, exactly at
level 3). -/
theorem C3_kernel_strengths_contrast (cv : Canvas) (level : ℕ)
    (hL : level = 1 ∨ level = 2 ∨ level = 3)
    (hsmall : cv.W * cv.H < 1024 * 1024) :
    ∃ s out,
      ImageEnhancerCore.enhancementStrength level = some s
      ∧ s = (if level = 1 then 3/10 else if level = 2 then 3/5 else 1)
      ∧ ImageEnhancerCore.applyOptimizedEnhancement cv level = some out
      ∧ ((3/5 : ℚ) < s ↔ level = 3)
      ∧ ∀ x y c, 1 ≤ x → x + 1 < cv.W → 1 ≤ y → y + 1 < cv.H → c < 3 →
          out.pix ((y * cv.W + x) * 4 + c)
            = (if (3/5 : ℚ) < s then
                specContrastVal ((s - 3/5) * (1/2))
                  (specSharpVal s (cv.pix ((y*cv.W+x)*4+c)) (cv.pix (((y-1)*cv.W+x)*4+c))
                    (cv.pix (((y+1)*cv.W+x)*4+c)) (cv.pix ((y*cv.W+(x-1))*4+c))
                    (cv.pix ((y*cv.W+(x+1))*4+c)))
              else
                specSharpVal s (cv.pix ((y*cv.W+x)*4+c)) (cv.pix (((y-1)*cv.W+x)*4+c))
                  (cv.pix (((y+1)*cv.W+x)*4+c)) (cv.pix ((y*cv.W+(x-1))*4+c))
                  (cv.pix ((y*cv.W+(x+1))*4+c))) := by
  rcases hL with rfl | rfl | rfl
  · refine ⟨3/10, ImageEnhancerCore.applyHighQualitySharpening cv (3/10), rfl, by norm_num,
      ?_, by norm_num, ?_⟩
    · have hstr : ImageEnhancerCore.enhancementStrength 1 = some (3/10) := rfl
      unfold ImageEnhancerCore.applyOptimizedEnhancement
      rw [hstr]
      dsimp only
      rw [if_neg (by norm_num : ¬(3/10 : ℚ) = 0), if_pos hsmall,
        if_neg (by norm_num : ¬(3/10 : ℚ) > 3/5)]
    · intro x y c hx1 hx2 hy1 hy2 hc
      rw [ImageEnhancerCore.applyHighQualitySharpening_interior cv (3/10) x y c hx1 hx2 hy1 hy2 hc]
      rw [if_neg (by norm_num : ¬(3/5 : ℚ) < 3/10)]
      rfl
  · refine ⟨3/5, ImageEnhancerCore.applyHighQualitySharpening cv (3/5), rfl, by norm_num,
      ?_, by norm_num, ?_⟩
    · have hstr : ImageEnhancerCore.enhancementStrength 2 = some (3/5) := rfl
      unfold ImageEnhancerCore.applyOptimizedEnhancement
      rw [hstr]
      dsimp only
      rw [if_neg (by norm_num : ¬(3/5 : ℚ) = 0), if_pos hsmall,
        if_neg (by norm_num : ¬(3/5 : ℚ) > 3/5)]
    · intro x y c hx1 hx2 hy1 hy2 hc
      rw [ImageEnhancerCore.applyHighQualitySharpening_interior cv (3/5) x y c hx1 hx2 hy1 hy2 hc]
      rw [if_neg (by norm_num : ¬(3/5 : ℚ) < 3/5)]
      rfl
  · refine ⟨1, ImageEnhancerCore.applyContrastEnhancement
      (ImageEnhancerCore.applyHighQualitySharpening cv 1) ((1 - 3/5) * (1/2)),
      rfl, by norm_num, ?_, by norm_num, ?_⟩
    · have hstr : ImageEnhancerCore.enhancementStrength 3 = some 1 := rfl
      unfold ImageEnhancerCore.applyOptimizedEnhancement
      rw [hstr]
      dsimp only
      rw [if_neg (by norm_num : ¬(1 : ℚ) = 0), if_pos hsmall,
        if_pos (by norm_num : (1 : ℚ) > 3/5)]
    · intro x y c hx1 hx2 hy1 hy2 hc
      have hx : x < cv.W := by omega
      have hy : y < cv.H := by omega
      have hidx : (y * cv.W + x) * 4 + c
          < (ImageEnhancerCore.applyHighQualitySharpening cv 1).W
            * (ImageEnhancerCore.applyHighQualitySharpening cv 1).H * 4 := by
        rw [ImageEnhancerCore.applyHighQualitySharpening_W,
          ImageEnhancerCore.applyHighQualitySharpening_H]
        exact flat_lt (pixel_lt hx hy) (by omega)
      rw [ImageEnhancerCore.applyContrastEnhancement_pix _ _ _ hidx]
      rw [if_pos (show ((y * cv.W + x) * 4 + c) % 4 < 3 by omega)]
      rw [ImageEnhancerCore.applyHighQualitySharpening_interior cv 1 x y c hx1 hx2 hy1 hy2 hc]
      rw [if_pos (by norm_num : (3/5 : ℚ) < 1)]
      unfold specContrastVal specContrastCoef specSharpVal
      congr 1
      ring

/-- Witness for C3 at a concrete 3×3 canvas and level 1. -/
theorem C3_kernel_strengths_contrast_witness :
    ((1 = 1 ∨ 1 = 2 ∨ 1 = 3) ∧ witnessCanvas.W * witnessCanvas.H < 1024 * 1024)
    ∧ ∃ s out,
      ImageEnhancerCore.enhancementStrength 1 = some s
      ∧ s = (if 1 = 1 then 3/10 else if 1 = 2 then 3/5 else 1)
      ∧ ImageEnhancerCore.applyOptimizedEnhancement witnessCanvas 1 = some out
      ∧ ((3/5 : ℚ) < s ↔ 1 = 3)
      ∧ ∀ x y c, 1 ≤ x → x + 1 < witnessCanvas.W → 1 ≤ y → y + 1 < witnessCanvas.H → c < 3 →
          out.pix ((y * witnessCanvas.W + x) * 4 + c)
            = (if (3/5 : ℚ) < s then
                specContrastVal ((s - 3/5) * (1/2))
                  (specSharpVal s (witnessCanvas.pix ((y*witnessCanvas.W+x)*4+c))
                    (witnessCanvas.pix (((y-1)*witnessCanvas.W+x)*4+c))
                    (witnessCanvas.pix (((y+1)*witnessCanvas.W+x)*4+c))
                    (witnessCanvas.pix ((y*witnessCanvas.W+(x-1))*4+c))
                    (witnessCanvas.pix ((y*witnessCanvas.W+(x+1))*4+c)))
              else
                specSharpVal s (witnessCanvas.pix ((y*witnessCanvas.W+x)*4+c))
                  (witnessCanvas.pix (((y-1)*witnessCanvas.W+x)*4+c))
                  (witnessCanvas.pix (((y+1)*witnessCanvas.W+x)*4+c))
                  (witnessCanvas.pix ((y*witnessCanvas.W+(x-1))*4+c))
                  (witnessCanvas.pix ((y*witnessCanvas.W+(x+1))*4+c))) :=
  ⟨⟨Or.inl rfl, by norm_num [witnessCanvas]⟩,
   C3_kernel_strengths_contrast witnessCanvas 1 (Or.inl rfl) (by norm_num [witnessCanvas])⟩
